import Mathlib

/-!
Shallow embedding of the Unix source-accessor subsystem
(src/libutil/unix/include/nix/util/unix-source-accessor.hh and
src/libutil/unix/unix-source-accessor.cc).

The filesystem is modelled as an immutable tree of nodes; syscalls are
deterministic functions of that tree.  Machine-level details that no claim
depends on (interrupt polling, descriptor numbers, EINTR retries) are not
modelled.  Helpers that live outside the given sources
(openFileEnsureBeneathNoSymlinks, CanonPath, posixStatToAccessorStat,
readLinkAt, MemorySourceAccessor) are modelled from the specification and
carry a doc comment saying so.

A directory node carries a denySearch flag: name lookups inside such a
directory fail with EACCES, which models missing search (execute)
permission and lets the development exercise status-query failures other
than plain nonexistence.

Intermediate symlinks on the absolute root path given to
makeFSSourceAccessor are approximated as unresolvable (ENOENT) by the
plain-open model; no claim depends on the real filesystem following them.
-/

namespace NixUnixAccessor

/-- POSIX errno values relevant to the accessor code. -/
inductive Errno where
  | eloop
  | enotdir
  | enoent
  | eacces
  | einval
deriving DecidableEq

/-- Filesystem entry kinds, mirroring SourceAccessor::Type. -/
inductive SType where
  | tRegular
  | tDirectory
  | tSymlink
  | tChar
  | tBlock
  | tFifo
  | tSocket
deriving DecidableEq

/-- Classification reported inline by readdir in dirent d_type. -/
inductive DType where
  | dtReg
  | dtDir
  | dtLnk
  | dtChr
  | dtBlk
  | dtFifo
  | dtSock
  | dtUnknown
deriving DecidableEq

/-- Modelled from the spec: CanonPath, an immutable normalized absolute
path; a sequence of segments with a virtual root. -/
structure CanonPath where
  segs : List String
deriving DecidableEq

def CanonPath.root : CanonPath := ⟨[]⟩

def CanonPath.isRoot (p : CanonPath) : Bool := p.segs.isEmpty

def CanonPath.parent (p : CanonPath) : Option CanonPath :=
  if p.segs.isEmpty then none else some ⟨p.segs.dropLast⟩

def CanonPath.baseName (p : CanonPath) : Option String := p.segs.getLast?

/-- Modelled from the spec: CanonPath::abs renders the absolute path. -/
def CanonPath.abs (p : CanonPath) : String :=
  "/" ++ String.intercalate "/" p.segs

def CanonPath.concat (p q : CanonPath) : CanonPath := ⟨p.segs ++ q.segs⟩

/-- A filesystem node.  Directory entries pair each name with the d_type
that readdir would report for it (possibly dtUnknown) and the real child
node.  The denySearch flag on a directory makes name lookups inside it
fail with EACCES (missing search permission). -/
inductive FSNode where
  | regular (executable : Bool) (content : List Nat) (mtime : Int)
  | directory (denySearch : Bool) (entries : List (String × DType × FSNode)) (mtime : Int)
  | symlink (target : String) (mtime : Int)
  | special (mtime : Int)

/-- First entry with the given name in a directory entry list. -/
def lookupEntry : List (String × DType × FSNode) → String → Option FSNode
  | [], _ => none
  | (n, _, node) :: rest, s => if n = s then some node else lookupEntry rest s

/-- Raw result of stat-family syscalls (the struct stat fields the code
reads: file kind, size, executable bit, st_mtime). -/
structure RawStat where
  kind : SType
  size : Nat
  exec : Bool
  mtime : Int
deriving DecidableEq

/-- Raw stat of a node (what fstat or fstatat with AT_SYMLINK_NOFOLLOW
reports for it). -/
def FSNode.rawStat : FSNode → RawStat
  | .regular ex c m => ⟨.tRegular, c.length, ex, m⟩
  | .directory _ _ m => ⟨.tDirectory, 0, false, m⟩
  | .symlink t m => ⟨.tSymlink, t.length, false, m⟩
  | .special m => ⟨.tChar, 0, false, m⟩

/-- Bytes a read-only descriptor for the node delivers (only regular files
have readable content in this model). -/
def FSNode.content : FSNode → List Nat
  | .regular _ c _ => c
  | _ => []

/-- Metadata record handed to accessor callers (SourceAccessor::Stat):
size only for regular files, executable flag only for regular files. -/
structure AccStat where
  type : SType
  fileSize : Option Nat
  isExecutable : Option Bool
  modTime : Option Int
deriving DecidableEq

/-- Modelled from the spec: posixStatToAccessorStat converts a raw stat
into the caller-facing metadata record; size present only for regular
files. -/
def posixStatToAccessorStat (st : RawStat) : AccStat where
  type := st.kind
  fileSize := if st.kind = .tRegular then some st.size else none
  isExecutable := if st.kind = .tRegular then some st.exec else none
  modTime := some st.mtime

/-- Mapping of the readdir d_type switch in
UnixDirectorySourceAccessor::readDirectory: the seven known values map to
entry kinds, anything else is left unclassified. -/
def dtypeToOption : DType → Option SType
  | .dtReg => some .tRegular
  | .dtDir => some .tDirectory
  | .dtLnk => some .tSymlink
  | .dtChr => some .tChar
  | .dtBlk => some .tBlock
  | .dtFifo => some .tFifo
  | .dtSock => some .tSocket
  | .dtUnknown => none

/-- Errors thrown by accessor operations.  Each carries the message it was
formatted with; SymlinkNotAllowed additionally carries the offending
sub-path payload, as in the C++ class. -/
inductive Error where
  | symlinkNotAllowed (path : CanonPath) (msg : String)
  | notADirectory (msg : String)
  | notASymlink (msg : String)
  | notARegularFile (msg : String)
  | fileNotFound (msg : String)
  | sysError (errNo : Option Errno) (msg : String)
  | badOptionalAccess
deriving DecidableEq

/-- Outcome of the beneath-only open helper: either an errno returned via
an invalid descriptor, or a thrown SymlinkNotAllowed carrying the
offending sub-path. -/
inductive OpenErr where
  | errno (e : Errno)
  | symlinkNA (p : CanonPath)
deriving DecidableEq

/-- Modelled from the spec: openFileEnsureBeneathNoSymlinks (declared in
nix/util/file-descriptor.hh, not part of the given sources).  Descends
component by component from the anchor descriptor.  An intermediate
component that is a symlink aborts resolution by throwing
SymlinkNotAllowed carrying the offending sub-path; an intermediate
component that is missing or not a directory yields ENOENT or ENOTDIR; a
lookup inside an unsearchable directory yields EACCES.  The final
component is opened with O_NOFOLLOW (a symlink yields ELOOP) and, when
wantDir (O_DIRECTORY) is set, must be a directory (ENOTDIR otherwise).
pfx accumulates the components already descended, for the
SymlinkNotAllowed payload. -/
def openBeneath (node : FSNode) (pfx : List String) (segs : List String) (wantDir : Bool) :
    Except OpenErr FSNode :=
  match segs with
  | [] => .ok node
  | s :: rest =>
    match node with
    | .directory deny entries _ =>
      if deny then .error (.errno .eacces)
      else
        match lookupEntry entries s with
        | none => .error (.errno .enoent)
        | some child =>
          if rest.isEmpty then
            match child with
            | .symlink _ _ => .error (.errno .eloop)
            | .directory _ _ _ => .ok child
            | _ => if wantDir then .error (.errno .enotdir) else .ok child
          else
            match child with
            | .symlink _ _ => .error (.symlinkNA ⟨pfx ++ [s]⟩)
            | .directory _ _ _ => openBeneath child (pfx ++ [s]) rest wantDir
            | _ => .error (.errno .enotdir)
    | _ => .error (.errno .enotdir)

/-- The action of openBeneath on the final path component once the child
entry has been looked up (O_NOFOLLOW, optional O_DIRECTORY). -/
def finalStep (child : FSNode) (wantDir : Bool) : Except OpenErr FSNode :=
  match child with
  | .symlink _ _ => .error (.errno .eloop)
  | .directory _ _ _ => .ok child
  | _ => if wantDir then .error (.errno .enotdir) else .ok child

/-- The action of openBeneath on an intermediate path component once the
child entry has been looked up (descend, or reject a symlink or
non-directory). -/
def interStep (child : FSNode) (pfx : List String) (s : String) (rest : List String)
    (wantDir : Bool) : Except OpenErr FSNode :=
  match child with
  | .symlink _ _ => .error (.symlinkNA ⟨pfx ++ [s]⟩)
  | .directory _ _ _ => openBeneath child (pfx ++ [s]) rest wantDir
  | _ => .error (.errno .enotdir)

/-- Model of fstatat(parentFd, name, AT_SYMLINK_NOFOLLOW): looks the name
up in the parent directory without following a trailing symlink. -/
def fstatatNoFollow (parent : FSNode) (name : String) : Except Errno RawStat :=
  match parent with
  | .directory deny entries _ =>
    if deny then .error .eacces
    else
      match lookupEntry entries name with
      | none => .error .enoent
      | some c => .ok c.rawStat
  | _ => .error .enotdir

/-- Modelled from the spec: readLinkAt(parentFd, name) reads the link
target of the named entry; a non-symlink entry yields EINVAL (the errno
UnixDirectorySourceAccessor::readLink translates into NotASymlink). -/
def readLinkAt (parent : FSNode) (name : String) : Except Errno String :=
  match parent with
  | .directory deny entries _ =>
    if deny then .error .eacces
    else
      match lookupEntry entries name with
      | none => .error .enoent
      | some (.symlink t _) => .ok t
      | some _ => .error .einval
  | _ => .error .enotdir

/-- Events observable through UnixFileSourceAccessor::readFile's two
callbacks: the size announcement and each streamed chunk of bytes. -/
inductive Ev where
  | announce (n : Nat)
  | chunk (bytes : List Nat)
deriving DecidableEq

/-- State of a UnixFileSourceAccessor instance.  content and contentStat
describe the open descriptor (what pread and fstat on it deliver; they
may disagree, modelling external truncation between stat and read).
cachedStat is the once-initialized stat cache guarded by statFlag;
queries is a ghost counter of fstat syscalls issued through this
instance. -/
structure FileAcc where
  content : List Nat
  contentStat : RawStat
  rootPath : CanonPath
  dpfx : String
  track : Bool
  mtime : Int
  cachedStat : Option RawStat
  queries : Nat
deriving DecidableEq

/-- UnixFileSourceAccessor constructor: display prefix is the root path;
a prefetched stat record, when supplied, fills the once-cache immediately
and feeds updateMtime. -/
def FileAcc.mkAcc (content : List Nat) (contentStat : RawStat) (rootPath : CanonPath)
    (track : Bool) (pre : Option RawStat) : FileAcc where
  content := content
  contentStat := contentStat
  rootPath := rootPath
  dpfx := rootPath.abs
  track := track
  mtime :=
    match pre with
    | some st => if track then max 0 st.mtime else 0
    | none => 0
  cachedStat := pre
  queries := 0

/-- UnixFileSourceAccessor::showPath: the root renders as the display
prefix alone; other paths use the base rendering. -/
def FileAcc.showPath (f : FileAcc) (p : CanonPath) : String :=
  if p.isRoot then f.dpfx else f.dpfx ++ p.abs

/-- UnixSourceAccessorBase::getLastModified. -/
def FileAcc.getLastModified (f : FileAcc) : Option Int :=
  if f.track then some f.mtime else none

/-- UnixFileSourceAccessor::maybeLstat: non-root paths are absent; the
root stat is computed once (std::call_once) and reused afterwards; a
prefetched record short-circuits the fstat entirely. -/
def FileAcc.maybeLstat (f : FileAcc) (path : CanonPath) :
    Except Error (Option AccStat) × FileAcc :=
  if !path.isRoot then (.ok none, f)
  else
    match f.cachedStat with
    | some st => (.ok (some (posixStatToAccessorStat st)), f)
    | none =>
      let st := f.contentStat
      (.ok (some (posixStatToAccessorStat st)),
        { f with
          cachedStat := some st
          queries := f.queries + 1
          mtime := if f.track then max f.mtime st.mtime else f.mtime })

/-- Bytes one positioned pread of at most 64 KiB delivers at the given
offset when left bytes remain wanted. -/
def preadChunk (content : List Nat) (offset left : Nat) : List Nat :=
  (content.drop offset).take (min left 65536)

/-- The pread loop of UnixFileSourceAccessor::readFile: repeatedly issue
positioned reads of at most 64 KiB until the announced byte count is
consumed; a zero-byte read before that (end of file reached early) is a
hard SysError.  Returns the streamed chunks and the final outcome. -/
def readLoop (content : List Nat) (offset left : Nat) :
    List (List Nat) × Option Error :=
  if _h0 : left = 0 then ([], none)
  else
    if hc : (preadChunk content offset left).length = 0 then
      ([], some (.sysError none "unexpected end-of-file"))
    else
      (preadChunk content offset left ::
        (readLoop content (offset + (preadChunk content offset left).length)
          (left - (preadChunk content offset left).length)).1,
       (readLoop content (offset + (preadChunk content offset left).length)
          (left - (preadChunk content offset left).length)).2)
termination_by left
decreasing_by
  all_goals
    have h1 : 0 < (preadChunk content offset left).length := Nat.pos_of_ne_zero hc
    omega

/-- UnixFileSourceAccessor::readFile: non-root paths fail with
FileNotFound; for the root, the size from maybeLstat is announced through
sizeCallback before any bytes are streamed, then the pread loop runs.
Accessing a missing fileSize (the descriptor is not a regular file)
models the bad_optional_access of st.fileSize.value(). -/
def FileAcc.readFile (f : FileAcc) (path : CanonPath) :
    (List Ev × Option Error) × FileAcc :=
  if !path.isRoot then
    (([], some (.fileNotFound ("path '" ++ f.showPath path ++ "' does not exist"))), f)
  else
    match f.maybeLstat path with
    | (.ok (some st), f2) =>
      match st.fileSize with
      | none => (([], some .badOptionalAccess), f2)
      | some size =>
        let r := readLoop f2.content 0 size
        ((Ev.announce size :: r.1.map Ev.chunk, r.2), f2)
    | (.error e, f2) => (([], some e), f2)
    | (.ok none, f2) => (([], some .badOptionalAccess), f2)

/-- State of a UnixDirectorySourceAccessor instance: the anchor directory
node the descriptor refers to, the root path, the display prefix, and the
mtime tracking state. -/
structure DirAcc where
  root : FSNode
  rootPath : CanonPath
  dpfx : String
  track : Bool
  mtime : Int

/-- UnixDirectorySourceAccessor constructor. -/
def DirAcc.mkAcc (root : FSNode) (rootPath : CanonPath) (track : Bool) : DirAcc where
  root := root
  rootPath := rootPath
  dpfx := rootPath.abs
  track := track
  mtime := 0

/-- SourceAccessor::showPath base rendering: display prefix followed by
the absolute path. -/
def DirAcc.showPath (a : DirAcc) (p : CanonPath) : String := a.dpfx ++ p.abs

/-- UnixSourceAccessorBase::getLastModified. -/
def DirAcc.getLastModified (a : DirAcc) : Option Int :=
  if a.track then some a.mtime else none

/-- UnixSourceAccessorBase::updateMtime: a plain high-water-mark update,
performed only when tracking is enabled. -/
def DirAcc.updateMtime (a : DirAcc) (newMtime : Int) : DirAcc :=
  if a.track then { a with mtime := max a.mtime newMtime } else a

/-- The message format of the boundary rethrow
(throw SymlinkNotAllowed(e.path, "path '%s' is a symlink", showPath(e.path))). -/
def symlinkMsg (shown : String) : String := "path '" ++ shown ++ "' is a symlink"

/-- The catch-and-rethrow at each public operation boundary of
UnixDirectorySourceAccessor: a SymlinkNotAllowed escaping the body is
re-thrown with its own sub-path rendered through showPath. -/
def DirAcc.boundary (a : DirAcc) (r : Except Error α × DirAcc) :
    Except Error α × DirAcc :=
  match r with
  | (.error (.symlinkNotAllowed p _), a2) =>
    (.error (.symlinkNotAllowed p (symlinkMsg (a.showPath p))), a2)
  | other => other

/-- UnixDirectorySourceAccessor::openParent: the parent of a root child is
the anchor itself; otherwise the parent is opened beneath-only as a
directory.  A returned-invalid descriptor with errno ELOOP or ENOTDIR is
converted into a thrown SymlinkNotAllowed carrying the parent path
(.error here); any other open failure returns an invalid descriptor
(.ok none). -/
def DirAcc.openParent (a : DirAcc) (path : CanonPath) :
    Except CanonPath (Option FSNode) :=
  match path.parent with
  | none => .ok (some a.root)
  | some parent =>
    if parent.isRoot then .ok (some a.root)
    else
      match openBeneath a.root [] parent.segs true with
      | .ok node => .ok (some node)
      | .error (.symlinkNA p) => .error p
      | .error (.errno e) =>
        if e = .eloop ∨ e = .enotdir then .error parent else .ok none

/-- Body of the try block of UnixDirectorySourceAccessor::maybeLstat: the
root is stat'ed directly on the anchor; a non-root path stats its base
name in the safely opened parent without following a trailing symlink.
Any fstatat failure and any invalid parent descriptor yield absent. -/
def DirAcc.lstatInner (a : DirAcc) (path : CanonPath) :
    Except Error (Option AccStat) × DirAcc :=
  if path.isRoot then
    (.ok (some (posixStatToAccessorStat a.root.rawStat)), a.updateMtime a.root.rawStat.mtime)
  else
    match a.openParent path with
    | .error p => (.error (.symlinkNotAllowed p ""), a)
    | .ok none => (.ok none, a)
    | .ok (some parentNode) =>
      match fstatatNoFollow parentNode (path.baseName.getD "") with
      | .error _ => (.ok none, a)
      | .ok st => (.ok (some (posixStatToAccessorStat st)), a.updateMtime st.mtime)

/-- UnixDirectorySourceAccessor::maybeLstat: the try body followed by the
catch-and-rethrow boundary. -/
def DirAcc.maybeLstat (a : DirAcc) (path : CanonPath) :
    Except Error (Option AccStat) × DirAcc :=
  a.boundary (a.lstatInner path)

/-- Body of the try block of UnixDirectorySourceAccessor::readFile: the
root is never a regular file; a non-root path is opened read-only
beneath-only with O_NOFOLLOW (final symlink: NotARegularFile via ELOOP;
missing or non-directory intermediate: FileNotFound via ENOENT/ENOTDIR),
and the open descriptor is delegated to a per-call UnixFileSourceAccessor
whose observed mtime is folded into the high-water mark on success. -/
def DirAcc.readFileInner (a : DirAcc) (path : CanonPath) :
    Except Error (List Ev) × DirAcc :=
  if path.isRoot then
    (.error (.notARegularFile ("'" ++ a.showPath path ++ "' is not a regular file")), a)
  else
    match openBeneath a.root [] path.segs false with
    | .error (.symlinkNA p) => (.error (.symlinkNotAllowed p ""), a)
    | .error (.errno e) =>
      if e = .eloop then
        (.error (.notARegularFile ("'" ++ a.showPath path ++ "' is a symlink, not a regular file")), a)
      else if e = .enoent ∨ e = .enotdir then
        (.error (.fileNotFound ("file '" ++ a.showPath path ++ "' does not exist")), a)
      else
        (.error (.sysError (some e) ("opening '" ++ a.showPath path ++ "'")), a)
    | .ok node =>
      let fa := FileAcc.mkAcc node.content node.rawStat (a.rootPath.concat path) a.track none
      match fa.readFile CanonPath.root with
      | ((tr, none), fa2) =>
        (.ok tr,
          match fa2.getLastModified with
          | some m => { a with mtime := max a.mtime m }
          | none => a)
      | ((_, some e), _) => (.error e, a)

/-- UnixDirectorySourceAccessor::readFile: try body plus boundary. -/
def DirAcc.readFile (a : DirAcc) (path : CanonPath) :
    Except Error (List Ev) × DirAcc :=
  a.boundary (a.readFileInner path)

/-- The fresh directory handle readDirectory works on: a new handle to
"self" for the root (openat of "."), a beneath-only O_DIRECTORY open
otherwise (ENOTDIR: NotADirectory, other errno: SysError). -/
def DirAcc.openDirHandle (a : DirAcc) (path : CanonPath) : Except Error FSNode :=
  if path.isRoot then .ok a.root
  else
    match openBeneath a.root [] path.segs true with
    | .ok node => .ok node
    | .error (.symlinkNA p) => .error (.symlinkNotAllowed p "")
    | .error (.errno e) =>
      if e = .enotdir then
        .error (.notADirectory ("'" ++ a.showPath path ++ "' is not a directory"))
      else
        .error (.sysError (some e) ("opening directory '" ++ a.showPath path ++ "'"))

/-- The raw readdir stream of a directory handle: "." and ".." followed by
the directory's entries with their reported d_type. -/
def rawReaddir : FSNode → List (String × DType)
  | .directory _ entries _ =>
    (".", .dtDir) :: ("..", .dtDir) :: entries.map (fun e => (e.1, e.2.1))
  | _ => []

/-- Body of the try block of
UnixDirectorySourceAccessor::readDirectory: iterate the fresh handle,
skip "." and "..", map each d_type through the switch. -/
def DirAcc.readDirInner (a : DirAcc) (path : CanonPath) :
    Except Error (List (String × Option SType)) × DirAcc :=
  match a.openDirHandle path with
  | .error e => (.error e, a)
  | .ok node =>
    (.ok (((rawReaddir node).filter (fun e => ¬(e.1 = "." ∨ e.1 = ".."))).map
      (fun e => (e.1, dtypeToOption e.2))), a)

/-- UnixDirectorySourceAccessor::readDirectory: try body plus boundary. -/
def DirAcc.readDirectory (a : DirAcc) (path : CanonPath) :
    Except Error (List (String × Option SType)) × DirAcc :=
  a.boundary (a.readDirInner path)

/-- Body of the try block of UnixDirectorySourceAccessor::readLink: the
root is never a symlink; a non-root path resolves its parent safely
(invalid parent: FileNotFound) and reads the link target of the base
name; EINVAL from that read becomes NotASymlink, other errnos propagate
as SysError. -/
def DirAcc.readLinkInner (a : DirAcc) (path : CanonPath) :
    Except Error String × DirAcc :=
  if path.isRoot then
    (.error (.notASymlink ("file '" ++ a.showPath path ++ "' is not a symlink")), a)
  else
    match a.openParent path with
    | .error p => (.error (.symlinkNotAllowed p ""), a)
    | .ok none =>
      (.error (.fileNotFound ("file '" ++ a.showPath path ++ "' does not exist")), a)
    | .ok (some parentNode) =>
      match readLinkAt parentNode (path.baseName.getD "") with
      | .ok target => (.ok target, a)
      | .error e =>
        if e = .einval then
          (.error (.notASymlink ("file '" ++ a.showPath path ++ "' is not a symlink")), a)
        else
          (.error (.sysError (some e) "reading symlink"), a)

/-- UnixDirectorySourceAccessor::readLink: try body plus boundary. -/
def DirAcc.readLink (a : DirAcc) (path : CanonPath) :
    Except Error String × DirAcc :=
  a.boundary (a.readLinkInner path)

/-- Walking a list of components from a node strictly through searchable
(non-deny) directories, landing on a searchable directory; the
specification-side shape predicate used to describe worlds in which safe
resolution certainly reaches a given entry. -/
def descendDirs : FSNode → List String → Option (List (String × DType × FSNode) × Int)
  | .directory false entries m, [] => some (entries, m)
  | .directory false entries _, s :: rest =>
    match lookupEntry entries s with
    | some child => descendDirs child rest
    | none => none
  | _, _ => none

/-- Model of resolving an absolute path for a plain open(2) of the root
in makeFSSourceAccessor.  The final component honours O_NOFOLLOW (a
symlink yields ELOOP) and O_DIRECTORY when wantDir is set.  An
intermediate symlink is approximated as unresolvable (ENOENT); no claim
depends on following it. -/
def openAbs (node : FSNode) (segs : List String) (wantDir noFollow : Bool) :
    Except Errno FSNode :=
  match segs with
  | [] => if wantDir then (match node with | .directory _ _ _ => .ok node | _ => .error .enotdir) else .ok node
  | s :: rest =>
    match node with
    | .directory deny entries _ =>
      if deny then .error .eacces
      else
        match lookupEntry entries s with
        | none => .error .enoent
        | some child =>
          if rest.isEmpty then
            match child with
            | .symlink _ _ =>
              if noFollow then .error .eloop else .error .enoent
            | .directory _ _ _ => .ok child
            | _ => if wantDir then .error .enotdir else .ok child
          else
            match child with
            | .symlink _ _ => .error .enoent
            | .directory _ _ _ => openAbs child rest wantDir noFollow
            | _ => .error .enotdir
    | _ => .error .enotdir

/-- The action of openAbs on the final path component once the child
entry has been looked up. -/
def absFinalStep (child : FSNode) (wantDir noFollow : Bool) : Except Errno FSNode :=
  match child with
  | .symlink _ _ => if noFollow then .error .eloop else .error .enoent
  | .directory _ _ _ => .ok child
  | _ => if wantDir then .error .enotdir else .ok child

/-- The action of openAbs on an intermediate path component once the
child entry has been looked up. -/
def absInterStep (child : FSNode) (rest : List String) (wantDir noFollow : Bool) :
    Except Errno FSNode :=
  match child with
  | .symlink _ _ => .error .enoent
  | .directory _ _ _ => openAbs child rest wantDir noFollow
  | _ => .error .enotdir

/-- The closed set of accessor variants the Root-Selection Entry Point can
return: a directory-tree accessor, a single-file accessor, the in-memory
single-symlink stand-in built by SymlinkSourceAccessor, the empty
accessor from makeEmptySourceAccessor, and the empty MemorySourceAccessor
with a path display set (the dummy of makeDummySourceAccessor). -/
inductive Accessor where
  | dirAcc (a : DirAcc)
  | fileAcc (f : FileAcc)
  | symlinkAcc (target : String) (rootPath : CanonPath) (track : Bool) (mtime : Int)
  | emptyAcc
  | dummyAcc (display : String)

/-- Modelled from the spec: statusOf on the in-memory single-symlink
accessor; its root is a symlink entry, every other path is absent. -/
def symlinkAccLstat (path : CanonPath) : Option AccStat :=
  if path.isRoot then some ⟨.tSymlink, none, none, none⟩ else none

/-- Modelled from the spec: readLink on the in-memory single-symlink
accessor returns the stored target for the root. -/
def symlinkAccReadLink (target : String) (path : CanonPath) : Except Error String :=
  if path.isRoot then .ok target else .error (.fileNotFound "no such path")

/-- SymlinkSourceAccessor::getLastModified: the real entry's mtime when
tracking was requested. -/
def symlinkAccLastModified (track : Bool) (mtime : Int) : Option Int :=
  if track then some mtime else none

/-- getFSSourceAccessor: the process-wide whole-filesystem accessor, a
directory accessor anchored at the real root with tracking disabled and
an empty display prefix. -/
def getFSSourceAccessor (tree : FSNode) : DirAcc :=
  { DirAcc.mkAcc tree CanonPath.root false with dpfx := "" }

/-- makeFSSourceAccessor (unix-source-accessor.cc): opens the root with
O_RDONLY plus O_NOFOLLOW and dispatches on the result.  Success: fstat the
descriptor and build a directory accessor, a file accessor pre-seeded with
that stat, or the empty accessor.  ELOOP: read the symlink via its parent
into an in-memory stand-in, falling back to a dummy accessor when the
parent cannot be opened or the entry cannot be stat'ed; readLinkAt
failures propagate as thrown SysError.  Any other open failure: a dummy
accessor.  The fstat on the freshly opened descriptor is modelled as
always succeeding, so the defensive SysError throw after it is
unreachable here. -/
def makeFSSourceAccessor (tree : FSNode) (root : CanonPath) (track : Bool) :
    Except Error Accessor :=
  if root.isRoot then .ok (.dirAcc (getFSSourceAccessor tree))
  else
    match openAbs tree root.segs false true with
    | .ok node =>
      let st := node.rawStat
      if st.kind = .tDirectory then
        .ok (.dirAcc (DirAcc.mkAcc node root track))
      else if st.kind = .tRegular then
        .ok (.fileAcc (FileAcc.mkAcc node.content st root track (some st)))
      else
        .ok .emptyAcc
    | .error e =>
      if e = .eloop then
        match root.parent with
        | none => .ok (.dummyAcc root.abs)
        | some parent =>
          let name := root.baseName.getD ""
          match openAbs tree parent.segs true false with
          | .error _ => .ok (.dummyAcc root.abs)
          | .ok parentNode =>
            match fstatatNoFollow parentNode name with
            | .error _ => .ok (.dummyAcc root.abs)
            | .ok st =>
              match readLinkAt parentNode name with
              | .error er => .error (.sysError (some er) "reading symlink")
              | .ok target => .ok (.symlinkAcc target root track st.mtime)
      else .ok (.dummyAcc root.abs)

/-- One public operation on a directory accessor, for reasoning about
operation sequences. -/
inductive DOp where
  | statOp (p : CanonPath)
  | readOp (p : CanonPath)
  | listOp (p : CanonPath)
  | linkOp (p : CanonPath)

/-- Run one operation for its state effect. -/
def DirAcc.runOp (a : DirAcc) : DOp → DirAcc
  | .statOp p => (a.maybeLstat p).2
  | .readOp p => (a.readFile p).2
  | .listOp p => (a.readDirectory p).2
  | .linkOp p => (a.readLink p).2

/-- Run a sequence of operations for their state effects. -/
def DirAcc.runSeq (a : DirAcc) : List DOp → DirAcc
  | [] => a
  | op :: ops => (a.runOp op).runSeq ops

/-- Timestamps observed by one operation: the st_mtime of the entry a
successful status query reports, or of the file a fully successful read
streams.  Failed operations and directory listings and link reads observe
none. -/
def DirAcc.observed (a : DirAcc) : DOp → List Int
  | .statOp p =>
    if p.isRoot then [a.root.rawStat.mtime]
    else
      match a.openParent p with
      | .ok (some parentNode) =>
        match fstatatNoFollow parentNode (p.baseName.getD "") with
        | .ok st => [st.mtime]
        | .error _ => []
      | _ => []
  | .readOp p =>
    if p.isRoot then []
    else
      match openBeneath a.root [] p.segs false with
      | .ok node =>
        match node.rawStat.kind with
        | .tRegular => if node.rawStat.size ≤ node.content.length then [node.rawStat.mtime] else []
        | _ => []
      | .error _ => []
  | .listOp _ => []
  | .linkOp _ => []

/-- Timestamps observed by a sequence of operations. -/
def DirAcc.observedSeq (a : DirAcc) : List DOp → List Int
  | [] => []
  | op :: ops => a.observed op ++ (a.runOp op).observedSeq ops

/-- Run a sequence of maybeLstat calls on a single-file accessor,
collecting the results. -/
def FileAcc.runStats (f : FileAcc) : List CanonPath → List (Except Error (Option AccStat)) × FileAcc
  | [] => ([], f)
  | p :: ps =>
    let r := f.maybeLstat p
    let rest := r.2.runStats ps
    (r.1 :: rest.1, rest.2)

/-- The chunks of bytes streamed to the sink, extracted from a readFile
event trace (ignoring the size announcement). -/
def chunkEvents (tr : List Ev) : List (List Nat) :=
  tr.filterMap (fun e => match e with | .chunk b => some b | _ => none)

/-! Concrete example worlds used by witnesses and counterexamples. -/

/-- Entries of the directory "a" in the symlink example world: "b" is a
symlink to /etc. -/
def wSymSub : List (String × DType × FSNode) := [("b", .dtLnk, .symlink "/etc" 5)]

/-- Example world: root contains directory "a", inside which "b" is a
symlink. -/
def wSym : FSNode := .directory false [("a", .dtDir, .directory false wSymSub 4)] 3

/-- Directory accessor anchored on the symlink example world, displayed
under /r. -/
def aSym : DirAcc := DirAcc.mkAcc wSym ⟨["r"]⟩ false

/-- Example world for status queries under a search-denied directory:
"d" exists and contains "f", but lookups inside "d" fail with EACCES. -/
def wDeny : FSNode :=
  .directory false [("d", .dtDir, .directory true [("f", .dtReg, .regular false [] 0)] 0)] 3

/-- Directory accessor anchored on the deny example world. -/
def aDeny : DirAcc := DirAcc.mkAcc wDeny ⟨[]⟩ false

/-- Example world whose root carries a negative (pre-epoch) st_mtime. -/
def wNeg : FSNode := .directory false [] (-1)

/-- Tracking directory accessor anchored on the negative-mtime world. -/
def aNeg : DirAcc := DirAcc.mkAcc wNeg ⟨[]⟩ true

/-- Example world whose entry "x" is a symlink, used for the symlink-root
fallback of the entry point. -/
def wSymRoot : FSNode := .directory false [("x", .dtLnk, .symlink "tgt" 9)] 0

/-- Example world with a regular file as an intermediate path component:
"f" is a regular file, addressed through as if it were a directory. -/
def wFileMid : FSNode :=
  .directory false [("f", .dtReg, .regular false [7] 2)] 1

/-- Directory accessor anchored on the file-as-intermediate world. -/
def aFileMid : DirAcc := DirAcc.mkAcc wFileMid ⟨[]⟩ false

/-- Example directory world for listing: one classified entry, one entry
the OS cannot classify inline. -/
def wList : FSNode :=
  .directory false [("e1", .dtReg, .regular true [1, 2] 0), ("e2", .dtUnknown, .special 0)] 0

/-- Directory accessor anchored on the listing example world. -/
def aList : DirAcc := DirAcc.mkAcc wList ⟨[]⟩ false

/-! Helper lemmas about the resolution walkers and the error boundary. -/

theorem boundary_snd (a : DirAcc) (r : Except Error α × DirAcc) :
    (a.boundary r).2 = r.2 := by
  obtain ⟨res, a2⟩ := r
  cases res with
  | ok v => rfl
  | error e => cases e <;> rfl

theorem boundary_ok (a : DirAcc) (r : Except Error α × DirAcc) (v : α)
    (h : r.1 = .ok v) : (a.boundary r).1 = .ok v := by
  obtain ⟨res, a2⟩ := r
  cases res with
  | ok w =>
    simp only [Except.ok.injEq] at h
    subst h
    rfl
  | error e => simp at h

theorem boundary_sym (a : DirAcc) (r : Except Error α × DirAcc) (p : CanonPath) (m0 : String)
    (h : r.1 = .error (.symlinkNotAllowed p m0)) :
    (a.boundary r).1 = .error (.symlinkNotAllowed p (symlinkMsg (a.showPath p))) := by
  obtain ⟨res, a2⟩ := r
  cases res with
  | ok w => simp at h
  | error e =>
    simp only [Except.error.injEq] at h
    subst h
    rfl

theorem boundary_other (a : DirAcc) (r : Except Error α × DirAcc) (e : Error)
    (h : r.1 = .error e) (hne : ∀ p m0, e ≠ .symlinkNotAllowed p m0) :
    (a.boundary r).1 = .error e := by
  obtain ⟨res, a2⟩ := r
  cases res with
  | ok w => simp at h
  | error e2 =>
    simp only [Except.error.injEq] at h
    subst h
    cases e2 with
    | symlinkNotAllowed p m0 => exact absurd rfl (hne p m0)
    | notADirectory m0 => rfl
    | notASymlink m0 => rfl
    | notARegularFile m0 => rfl
    | fileNotFound m0 => rfl
    | sysError en m0 => rfl
    | badOptionalAccess => rfl

theorem boundary_sym_inv (a : DirAcc) (r : Except Error α × DirAcc) (q : CanonPath) (msg : String)
    (h : (a.boundary r).1 = .error (.symlinkNotAllowed q msg)) :
    (∃ m0, r.1 = .error (.symlinkNotAllowed q m0)) ∧ msg = symlinkMsg (a.showPath q) := by
  obtain ⟨res, a2⟩ := r
  cases res with
  | ok w => simp [DirAcc.boundary] at h
  | error e =>
    cases e with
    | symlinkNotAllowed p m0 =>
      simp only [DirAcc.boundary, Except.error.injEq, Error.symlinkNotAllowed.injEq] at h
      obtain ⟨hq, hm⟩ := h
      subst hq
      exact ⟨⟨m0, rfl⟩, hm.symm⟩
    | notADirectory m0 => simp [DirAcc.boundary] at h
    | notASymlink m0 => simp [DirAcc.boundary] at h
    | notARegularFile m0 => simp [DirAcc.boundary] at h
    | fileNotFound m0 => simp [DirAcc.boundary] at h
    | sysError en m0 => simp [DirAcc.boundary] at h
    | badOptionalAccess => simp [DirAcc.boundary] at h

theorem ob_deny (entries : List (String × DType × FSNode)) (m0 : Int) (pfx : List String)
    (s : String) (rest : List String) (w : Bool) :
    openBeneath (.directory true entries m0) pfx (s :: rest) w = .error (.errno .eacces) := by
  rw [openBeneath.eq_def]
  rfl

theorem ob_none (entries : List (String × DType × FSNode)) (m0 : Int) (pfx : List String)
    (s : String) (rest : List String) (w : Bool) (hl : lookupEntry entries s = none) :
    openBeneath (.directory false entries m0) pfx (s :: rest) w = .error (.errno .enoent) := by
  rw [openBeneath.eq_def]
  dsimp only
  rw [hl]
  rfl

theorem ob_final (entries : List (String × DType × FSNode)) (m0 : Int) (pfx : List String)
    (s : String) (w : Bool) (child : FSNode) (hl : lookupEntry entries s = some child) :
    openBeneath (.directory false entries m0) pfx [s] w = finalStep child w := by
  rw [openBeneath.eq_def]
  dsimp only
  rw [hl]
  cases child <;> rfl

theorem ob_step (entries : List (String × DType × FSNode)) (m0 : Int) (pfx : List String)
    (s : String) (rest : List String) (w : Bool) (child : FSNode)
    (hr : rest ≠ []) (hl : lookupEntry entries s = some child) :
    openBeneath (.directory false entries m0) pfx (s :: rest) w = interStep child pfx s rest w := by
  obtain ⟨b, L, hbl⟩ := List.exists_cons_of_ne_nil hr
  subst hbl
  rw [openBeneath.eq_def]
  dsimp only
  rw [hl]
  cases child <;> rfl

theorem descendDirs_dir (node : FSNode) (pre : List String)
    (es : List (String × DType × FSNode)) (m : Int)
    (hd : descendDirs node pre = some (es, m)) :
    ∃ entries m0, node = .directory false entries m0 := by
  cases node with
  | directory deny entries m0 =>
    cases deny with
    | false => exact ⟨entries, m0, rfl⟩
    | true => cases pre <;> simp [descendDirs] at hd
  | regular ex c mt => cases pre <;> simp [descendDirs] at hd
  | symlink t mt => cases pre <;> simp [descendDirs] at hd
  | special mt => cases pre <;> simp [descendDirs] at hd

theorem openBeneath_descend (pre : List String) :
    ∀ (node : FSNode) (pfx tail : List String) (w : Bool)
      (es : List (String × DType × FSNode)) (m : Int),
      tail ≠ [] → descendDirs node pre = some (es, m) →
      openBeneath node pfx (pre ++ tail) w =
        openBeneath (.directory false es m) (pfx ++ pre) tail w := by
  induction pre with
  | nil =>
    intro node pfx tail w es m htail hd
    obtain ⟨entries, m0, hn⟩ := descendDirs_dir node [] es m hd
    subst hn
    simp only [descendDirs, Option.some.injEq, Prod.mk.injEq] at hd
    obtain ⟨he, hm⟩ := hd
    subst he; subst hm
    simp
  | cons s pre' ih =>
    intro node pfx tail w es m htail hd
    obtain ⟨entries, m0, hn⟩ := descendDirs_dir node (s :: pre') es m hd
    subst hn
    simp only [descendDirs] at hd
    cases hl : lookupEntry entries s with
    | none => rw [hl] at hd; simp at hd
    | some child =>
      rw [hl] at hd
      obtain ⟨ce, cm, hc⟩ := descendDirs_dir child pre' es m hd
      subst hc
      have hrest : pre' ++ tail ≠ [] := by
        intro hcon
        exact htail (List.append_eq_nil.mp hcon).2
      rw [List.cons_append, ob_step entries m0 pfx s (pre' ++ tail) w _ hrest hl]
      dsimp only [interStep]
      rw [ih _ (pfx ++ [s]) tail w es m htail hd]
      simp

theorem openBeneath_symNA_q (segs : List String) :
    ∀ (node : FSNode) (pfx : List String) (w : Bool) (q : CanonPath),
      openBeneath node pfx segs w = .error (.symlinkNA q) →
      ∃ k, 0 < k ∧ k < segs.length ∧ q.segs = pfx ++ segs.take k := by
  induction segs with
  | nil =>
    intro node pfx w q h
    rw [openBeneath.eq_def] at h
    simp at h
  | cons s rest ih =>
    intro node pfx w q h
    cases node with
    | regular ex c mt => rw [openBeneath.eq_def] at h; simp at h
    | symlink t mt => rw [openBeneath.eq_def] at h; simp at h
    | special mt => rw [openBeneath.eq_def] at h; simp at h
    | directory deny entries m0 =>
      cases deny with
      | true => rw [ob_deny] at h; simp at h
      | false =>
        cases hl : lookupEntry entries s with
        | none => rw [ob_none entries m0 pfx s rest w hl] at h; simp at h
        | some child =>
          cases rest with
          | nil =>
            rw [ob_final entries m0 pfx s w child hl] at h
            cases child with
            | regular ex c mt =>
              dsimp only [finalStep] at h
              cases w <;> simp at h
            | directory d2 e2 mt => simp [finalStep] at h
            | symlink t mt => simp [finalStep] at h
            | special mt =>
              dsimp only [finalStep] at h
              cases w <;> simp at h
          | cons r rs =>
            rw [ob_step entries m0 pfx s (r :: rs) w child (by simp) hl] at h
            cases child with
            | regular ex c mt => simp [interStep] at h
            | special mt => simp [interStep] at h
            | symlink t mt =>
              simp only [interStep, Except.error.injEq, OpenErr.symlinkNA.injEq] at h
              refine ⟨1, by omega, by simp, ?_⟩
              rw [← h]
              simp
            | directory d2 e2 mt =>
              dsimp only [interStep] at h
              obtain ⟨k, hk0, hklt, hq⟩ := ih _ (pfx ++ [s]) w q h
              refine ⟨k + 1, by omega, by simp at hklt ⊢; omega, ?_⟩
              rw [hq, List.take_succ_cons, List.append_assoc]
              rfl

theorem openBeneath_through_symlink (root : FSNode) (pre : List String)
    (es : List (String × DType × FSNode)) (m : Int) (s : String) (t : String) (tm : Int)
    (q : List String) (w : Bool)
    (hd : descendDirs root pre = some (es, m))
    (hl : lookupEntry es s = some (.symlink t tm)) :
    openBeneath root [] (pre ++ s :: q) w =
      (if q.isEmpty then .error (.errno .eloop) else .error (.symlinkNA ⟨pre ++ [s]⟩)) := by
  rw [openBeneath_descend pre root [] (s :: q) w es m (by simp) hd]
  simp only [List.nil_append]
  cases q with
  | nil => rw [ob_final es m pre s w _ hl]; rfl
  | cons r rs => rw [ob_step es m pre s (r :: rs) w _ (by simp) hl]; rfl

theorem openBeneath_through_file (root : FSNode) (pre : List String)
    (es : List (String × DType × FSNode)) (m : Int) (s : String) (ex : Bool)
    (c : List Nat) (mt : Int) (q : List String) (w : Bool)
    (hd : descendDirs root pre = some (es, m))
    (hl : lookupEntry es s = some (.regular ex c mt)) :
    openBeneath root [] (pre ++ s :: q) w =
      (if q.isEmpty then
        (if w then .error (.errno .enotdir) else .ok (.regular ex c mt))
      else .error (.errno .enotdir)) := by
  rw [openBeneath_descend pre root [] (s :: q) w es m (by simp) hd]
  simp only [List.nil_append]
  cases q with
  | nil => rw [ob_final es m pre s w _ hl]; rfl
  | cons r rs => rw [ob_step es m pre s (r :: rs) w _ (by simp) hl]; rfl

theorem parent_eq_of_cons (pre : List String) (s : String) (rest : List String)
    (hr : rest ≠ []) :
    CanonPath.parent ⟨pre ++ s :: rest⟩ = some ⟨pre ++ s :: rest.dropLast⟩ := by
  obtain ⟨r, rs, hrr⟩ := List.exists_cons_of_ne_nil hr
  subst hrr
  simp only [CanonPath.parent]
  rw [if_neg (by simp)]
  rw [List.dropLast_append_of_ne_nil pre (by simp), List.dropLast_cons₂]

theorem openParent_symlink (a : DirAcc) (pre : List String)
    (es : List (String × DType × FSNode)) (m : Int) (s : String) (t : String) (tm : Int)
    (rest : List String)
    (hd : descendDirs a.root pre = some (es, m))
    (hl : lookupEntry es s = some (.symlink t tm))
    (hr : rest ≠ []) :
    a.openParent ⟨pre ++ s :: rest⟩ = .error ⟨pre ++ [s]⟩ := by
  simp only [DirAcc.openParent, parent_eq_of_cons pre s rest hr]
  rw [if_neg (by simp [CanonPath.isRoot])]
  rw [openBeneath_through_symlink a.root pre es m s t tm rest.dropLast true hd hl]
  cases hq : rest.dropLast with
  | nil => simp [hq]
  | cons r2 rs2 => simp

theorem openParent_file (a : DirAcc) (pre : List String)
    (es : List (String × DType × FSNode)) (m : Int) (s : String) (ex : Bool)
    (c : List Nat) (mt : Int) (rest : List String)
    (hd : descendDirs a.root pre = some (es, m))
    (hl : lookupEntry es s = some (.regular ex c mt))
    (hr : rest ≠ []) :
    a.openParent ⟨pre ++ s :: rest⟩ = .error ⟨pre ++ s :: rest.dropLast⟩ := by
  simp only [DirAcc.openParent, parent_eq_of_cons pre s rest hr]
  rw [if_neg (by simp [CanonPath.isRoot])]
  rw [openBeneath_through_file a.root pre es m s ex c mt rest.dropLast true hd hl]
  cases hq : rest.dropLast with
  | nil => simp [hq]
  | cons r2 rs2 => simp

theorem openParent_error_prefix (a : DirAcc) (path : CanonPath) (q : CanonPath)
    (hroot : path.isRoot = false) (h : a.openParent path = .error q) :
    q.segs.length < path.segs.length ∧ q.segs = path.segs.take q.segs.length := by
  have hne : path.segs ≠ [] := by
    simpa [CanonPath.isRoot, List.isEmpty_eq_false] using hroot
  have hlen : 0 < path.segs.length := List.length_pos.mpr hne
  have hpe : path.segs.isEmpty = false := hroot
  have hparent : CanonPath.parent path = some ⟨path.segs.dropLast⟩ := by
    simp [CanonPath.parent, hpe]
  simp only [DirAcc.openParent] at h
  rw [hparent] at h
  dsimp only at h
  by_cases hpr : CanonPath.isRoot ⟨path.segs.dropLast⟩
  · rw [if_pos hpr] at h
    simp at h
  · rw [if_neg hpr] at h
    cases hob : openBeneath a.root [] path.segs.dropLast true with
    | ok node => rw [hob] at h; simp at h
    | error oe =>
      rw [hob] at h
      cases oe with
      | symlinkNA p =>
        dsimp only at h
        simp only [Except.error.injEq] at h
        rw [← h]
        obtain ⟨k, hk0, hklt, hq⟩ := openBeneath_symNA_q path.segs.dropLast a.root [] true p hob
        rw [List.length_dropLast] at hklt
        have hq2 : p.segs = path.segs.take k := by
          rw [hq, List.nil_append, List.dropLast_eq_take, List.take_take]
          congr 1
          omega
        have hqlen : p.segs.length = k := by
          rw [hq2, List.length_take]
          have : k ≤ path.segs.length := by omega
          omega
        constructor
        · omega
        · rw [hqlen, hq2]
      | errno e =>
        dsimp only at h
        by_cases he : e = .eloop ∨ e = .enotdir
        · rw [if_pos he] at h
          simp only [Except.error.injEq] at h
          rw [← h]
          constructor
          · simp only [List.length_dropLast]
            omega
          · simp only [List.length_dropLast, List.dropLast_eq_take]
            congr 1
            rw [List.length_take]
            omega
        · rw [if_neg he] at h
          simp at h

theorem readLoop_ok (l : Nat) :
    ∀ (c : List Nat) (o : Nat), o + l ≤ c.length →
      (readLoop c o l).2 = none ∧ (readLoop c o l).1.flatten = (c.drop o).take l := by
  induction l using Nat.strong_induction_on with
  | _ l ih =>
    intro c o hlen
    by_cases h0 : l = 0
    · subst h0
      rw [readLoop.eq_def]
      simp
    · have hcl : (preadChunk c o l).length = min l 65536 := by
        simp only [preadChunk, List.length_take, List.length_drop]
        omega
      have hclpos : 0 < (preadChunk c o l).length := by
        rw [hcl]
        omega
      have hlt : l - (preadChunk c o l).length < l := by omega
      have hrec := ih (l - (preadChunk c o l).length) hlt c (o + (preadChunk c o l).length)
        (by omega)
      rw [readLoop.eq_def]
      rw [dif_neg h0, dif_neg (by omega)]
      dsimp only
      refine ⟨hrec.1, ?_⟩
      rw [List.flatten_cons, hrec.2]
      rw [hcl]
      have hchunk : preadChunk c o l = (c.drop o).take (min l 65536) := rfl
      rw [hchunk]
      rw [show c.drop (o + min l 65536) = (c.drop o).drop (min l 65536) from by
        rw [List.drop_drop]]
      rw [← List.take_add]
      rw [show min l 65536 + (l - min l 65536) = l from by omega]

theorem readLoop_short (l : Nat) :
    ∀ (c : List Nat) (o : Nat), c.length < o + l → 0 < l →
      (readLoop c o l).2 = some (.sysError none "unexpected end-of-file") := by
  induction l using Nat.strong_induction_on with
  | _ l ih =>
    intro c o hlen hl0
    by_cases hce : (preadChunk c o l).length = 0
    · rw [readLoop.eq_def]
      rw [dif_neg (by omega), dif_pos hce]
    · have hcl : (preadChunk c o l).length = min (min l 65536) (c.length - o) := by
        simp only [preadChunk, List.length_take, List.length_drop]
      have hcle : (preadChunk c o l).length ≤ c.length - o := by omega
      have hclt : (preadChunk c o l).length < l := by
        have : c.length - o < l := by omega
        omega
      rw [readLoop.eq_def]
      rw [dif_neg (by omega), dif_neg hce]
      dsimp only
      exact ih (l - (preadChunk c o l).length) (by omega) c (o + (preadChunk c o l).length)
        (by omega) (by omega)

theorem readLoop_err (l : Nat) (c : List Nat) (o : Nat) :
    (readLoop c o l).2 = none ∨
      (readLoop c o l).2 = some (.sysError none "unexpected end-of-file") := by
  induction l using Nat.strong_induction_on generalizing o with
  | _ l ih =>
    by_cases h0 : l = 0
    · subst h0
      rw [readLoop.eq_def]
      simp
    · by_cases hce : (preadChunk c o l).length = 0
      · rw [readLoop.eq_def, dif_neg h0, dif_pos hce]
        simp
      · rw [readLoop.eq_def, dif_neg h0, dif_neg hce]
        dsimp only
        exact ih (l - (preadChunk c o l).length)
          (by have := Nat.pos_of_ne_zero hce; omega) (o + (preadChunk c o l).length)

theorem fileAcc_maybeLstat_ok (f : FileAcc) (p : CanonPath) :
    ∃ v f2, f.maybeLstat p = (.ok v, f2) := by
  simp only [FileAcc.maybeLstat]
  by_cases hp : p.isRoot
  · simp only [hp, Bool.not_true, Bool.false_eq_true, if_false]
    cases hc : f.cachedStat with
    | some st => exact ⟨_, _, rfl⟩
    | none => exact ⟨_, _, rfl⟩
  · simp only [Bool.not_eq_true] at hp
    simp only [hp, Bool.not_false, if_true]
    exact ⟨_, _, rfl⟩

theorem fileAcc_readFile_err (f : FileAcc) (p : CanonPath) (e : Error)
    (h : (f.readFile p).1.2 = some e) : ∀ q m0, e ≠ .symlinkNotAllowed q m0 := by
  intro q m0
  simp only [FileAcc.readFile] at h
  by_cases hp : p.isRoot
  · simp only [hp, Bool.not_true, Bool.false_eq_true, if_false] at h
    obtain ⟨v, f2, hml⟩ := fileAcc_maybeLstat_ok f p
    rw [hml] at h
    cases v with
    | none =>
      dsimp only at h
      simp only [Option.some.injEq] at h
      subst h
      simp
    | some st =>
      dsimp only at h
      cases hfs : st.fileSize with
      | none =>
        rw [hfs] at h
        simp only [Option.some.injEq] at h
        subst h
        simp
      | some size =>
        rw [hfs] at h
        dsimp only at h
        rcases readLoop_err size f2.content 0 with hrl | hrl <;> rw [hrl] at h
        · simp at h
        · simp only [Option.some.injEq] at h
          subst h
          simp
  · simp only [Bool.not_eq_true] at hp
    simp only [hp, Bool.not_false, if_true] at h
    simp only [Option.some.injEq] at h
    subst h
    simp

theorem lstat_symNA_inv (a : DirAcc) (path q : CanonPath) (m0 : String)
    (hin : (a.lstatInner path).1 = .error (.symlinkNotAllowed q m0)) :
    path.isRoot = false ∧ a.openParent path = .error q := by
  cases hroot : path.isRoot with
  | true => simp [DirAcc.lstatInner, hroot] at hin
  | false =>
    refine ⟨rfl, ?_⟩
    simp only [DirAcc.lstatInner, hroot, Bool.false_eq_true, if_false] at hin
    cases hop : a.openParent path with
    | error p =>
      rw [hop] at hin
      dsimp only at hin
      simp only [Except.error.injEq, Error.symlinkNotAllowed.injEq] at hin
      rw [hin.1]
    | ok o =>
      rw [hop] at hin
      cases o with
      | none => simp at hin
      | some pn =>
        dsimp only at hin
        cases hst : fstatatNoFollow pn (path.baseName.getD "") with
        | error e2 => rw [hst] at hin; simp at hin
        | ok st => rw [hst] at hin; simp at hin

theorem readFileInner_symNA_inv (a : DirAcc) (path q : CanonPath) (m0 : String)
    (hin : (a.readFileInner path).1 = .error (.symlinkNotAllowed q m0)) :
    openBeneath a.root [] path.segs false = .error (.symlinkNA q) := by
  cases hroot : path.isRoot with
  | true => simp [DirAcc.readFileInner, hroot] at hin
  | false =>
    simp only [DirAcc.readFileInner, hroot, Bool.false_eq_true, if_false] at hin
    cases hob : openBeneath a.root [] path.segs false with
    | error oe =>
      rw [hob] at hin
      cases oe with
      | symlinkNA p =>
        dsimp only at hin
        simp only [Except.error.injEq, Error.symlinkNotAllowed.injEq] at hin
        rw [hin.1]
      | errno e =>
        dsimp only at hin
        split at hin
        · simp at hin
        · split at hin
          · simp at hin
          · simp at hin
    | ok node =>
      rw [hob] at hin
      dsimp only at hin
      rcases hfa : (FileAcc.mkAcc node.content node.rawStat (a.rootPath.concat path)
          a.track none).readFile CanonPath.root with ⟨⟨tr, out⟩, fa2⟩
      rw [hfa] at hin
      cases out with
      | none => simp at hin
      | some e2 =>
        dsimp only at hin
        simp only [Except.error.injEq] at hin
        have hne := fileAcc_readFile_err _ CanonPath.root e2 (by rw [hfa]) q m0
        exact absurd hin hne

theorem readDirInner_symNA_inv (a : DirAcc) (path q : CanonPath) (m0 : String)
    (hin : (a.readDirInner path).1 = .error (.symlinkNotAllowed q m0)) :
    openBeneath a.root [] path.segs true = .error (.symlinkNA q) := by
  simp only [DirAcc.readDirInner] at hin
  cases hod : a.openDirHandle path with
  | ok node => rw [hod] at hin; simp at hin
  | error e =>
    rw [hod] at hin
    dsimp only at hin
    simp only [Except.error.injEq] at hin
    subst hin
    cases hroot : path.isRoot with
    | true => simp [DirAcc.openDirHandle, hroot] at hod
    | false =>
      simp only [DirAcc.openDirHandle, hroot, Bool.false_eq_true, if_false] at hod
      cases hob : openBeneath a.root [] path.segs true with
      | ok node => rw [hob] at hod; simp at hod
      | error oe =>
        rw [hob] at hod
        cases oe with
        | symlinkNA p =>
          dsimp only at hod
          simp only [Except.error.injEq, Error.symlinkNotAllowed.injEq] at hod
          rw [hod.1]
        | errno e2 =>
          dsimp only at hod
          split at hod
          · simp at hod
          · simp at hod

theorem readLink_symNA_inv (a : DirAcc) (path q : CanonPath) (m0 : String)
    (hin : (a.readLinkInner path).1 = .error (.symlinkNotAllowed q m0)) :
    path.isRoot = false ∧ a.openParent path = .error q := by
  cases hroot : path.isRoot with
  | true => simp [DirAcc.readLinkInner, hroot] at hin
  | false =>
    refine ⟨rfl, ?_⟩
    simp only [DirAcc.readLinkInner, hroot, Bool.false_eq_true, if_false] at hin
    cases hop : a.openParent path with
    | error p =>
      rw [hop] at hin
      dsimp only at hin
      simp only [Except.error.injEq, Error.symlinkNotAllowed.injEq] at hin
      rw [hin.1]
    | ok o =>
      rw [hop] at hin
      cases o with
      | none => simp at hin
      | some pn =>
        dsimp only at hin
        cases hrl : readLinkAt pn (path.baseName.getD "") with
        | ok t => rw [hrl] at hin; simp at hin
        | error e2 =>
          rw [hrl] at hin
          dsimp only at hin
          split at hin
          · simp at hin
          · simp at hin

theorem symNA_q_self (segs : List String) (node : FSNode) (w : Bool) (q : CanonPath)
    (h : openBeneath node [] segs w = .error (.symlinkNA q)) :
    q.segs.length < segs.length ∧ q.segs = segs.take q.segs.length := by
  obtain ⟨k, hk0, hklt, hq⟩ := openBeneath_symNA_q segs node [] w q h
  rw [List.nil_append] at hq
  have hqlen : q.segs.length = k := by
    rw [hq, List.length_take]
    omega
  exact ⟨by omega, by rw [hqlen, hq]⟩

/-! Claim theorems. -/

/-- C1: for every non-root path addressed through the directory accessor
whose non-final component is a symlink, every operation (statusOf, read,
listDirectory, readLink) fails with the SymlinkNotAllowed condition, for
any symlink target whatsoever; no operation dereferences the intermediate
symlink. -/
theorem claimC1_intermediate_symlink_rejected
    (a : DirAcc) (pre : List String) (es : List (String × DType × FSNode)) (m : Int)
    (s t : String) (tm : Int) (rest : List String)
    (hd : descendDirs a.root pre = some (es, m))
    (hl : lookupEntry es s = some (.symlink t tm))
    (hr : rest ≠ []) :
    ((a.maybeLstat ⟨pre ++ s :: rest⟩).1 =
        .error (.symlinkNotAllowed ⟨pre ++ [s]⟩ (symlinkMsg (a.showPath ⟨pre ++ [s]⟩)))) ∧
    ((a.readFile ⟨pre ++ s :: rest⟩).1 =
        .error (.symlinkNotAllowed ⟨pre ++ [s]⟩ (symlinkMsg (a.showPath ⟨pre ++ [s]⟩)))) ∧
    ((a.readDirectory ⟨pre ++ s :: rest⟩).1 =
        .error (.symlinkNotAllowed ⟨pre ++ [s]⟩ (symlinkMsg (a.showPath ⟨pre ++ [s]⟩)))) ∧
    ((a.readLink ⟨pre ++ s :: rest⟩).1 =
        .error (.symlinkNotAllowed ⟨pre ++ [s]⟩ (symlinkMsg (a.showPath ⟨pre ++ [s]⟩)))) := by
  obtain ⟨r, rs, rfl⟩ := List.exists_cons_of_ne_nil hr
  have hroot : CanonPath.isRoot ⟨pre ++ s :: r :: rs⟩ = false := by
    simp [CanonPath.isRoot]
  have hop := openParent_symlink a pre es m s t tm (r :: rs) hd hl (by simp)
  have hfull := fun w => openBeneath_through_symlink a.root pre es m s t tm (r :: rs) w hd hl
  refine ⟨?_, ?_, ?_, ?_⟩
  · have hin : (a.lstatInner ⟨pre ++ s :: r :: rs⟩).1 =
        .error (.symlinkNotAllowed ⟨pre ++ [s]⟩ "") := by
      simp only [DirAcc.lstatInner, hroot, Bool.false_eq_true, if_false, hop]
    exact boundary_sym a _ _ _ hin
  · have hin : (a.readFileInner ⟨pre ++ s :: r :: rs⟩).1 =
        .error (.symlinkNotAllowed ⟨pre ++ [s]⟩ "") := by
      simp only [DirAcc.readFileInner, hroot, Bool.false_eq_true, if_false, hfull false]
      rfl
    exact boundary_sym a _ _ _ hin
  · have hin : (a.readDirInner ⟨pre ++ s :: r :: rs⟩).1 =
        .error (.symlinkNotAllowed ⟨pre ++ [s]⟩ "") := by
      simp only [DirAcc.readDirInner, DirAcc.openDirHandle, hroot, Bool.false_eq_true,
        if_false, hfull true]
      rfl
    exact boundary_sym a _ _ _ hin
  · have hin : (a.readLinkInner ⟨pre ++ s :: r :: rs⟩).1 =
        .error (.symlinkNotAllowed ⟨pre ++ [s]⟩ "") := by
      simp only [DirAcc.readLinkInner, hroot, Bool.false_eq_true, if_false, hop]
    exact boundary_sym a _ _ _ hin

/-- C1 witness: in the concrete world with symlink /a/b, all four
operations on /a/b/c fail with SymlinkNotAllowed at sub-path /a/b. -/
theorem claimC1_witness :
    descendDirs aSym.root ["a"] = some (wSymSub, 4) ∧
    lookupEntry wSymSub "b" = some (.symlink "/etc" 5) ∧
    (["c"] : List String) ≠ [] ∧
    ((aSym.maybeLstat ⟨["a", "b", "c"]⟩).1 =
        .error (.symlinkNotAllowed ⟨["a", "b"]⟩ (symlinkMsg (aSym.showPath ⟨["a", "b"]⟩)))) ∧
    ((aSym.readFile ⟨["a", "b", "c"]⟩).1 =
        .error (.symlinkNotAllowed ⟨["a", "b"]⟩ (symlinkMsg (aSym.showPath ⟨["a", "b"]⟩)))) ∧
    ((aSym.readDirectory ⟨["a", "b", "c"]⟩).1 =
        .error (.symlinkNotAllowed ⟨["a", "b"]⟩ (symlinkMsg (aSym.showPath ⟨["a", "b"]⟩)))) ∧
    ((aSym.readLink ⟨["a", "b", "c"]⟩).1 =
        .error (.symlinkNotAllowed ⟨["a", "b"]⟩ (symlinkMsg (aSym.showPath ⟨["a", "b"]⟩)))) := by
  have h := claimC1_intermediate_symlink_rejected aSym ["a"] wSymSub 4 "b" "/etc" 5 ["c"]
    (by rfl) (by rfl) (by simp)
  exact ⟨by rfl, by rfl, by simp, h.1, h.2.1, h.2.2.1, h.2.2.2⟩

/-- C10: when a non-final path component exists but is a regular file,
statusOf and readLink fail with SymlinkNotAllowed (the ENOTDIR of parent
resolution is folded into the symlink condition) while read on the same
path reports FileNotFound. -/
theorem claimC10_file_intermediate_divergence
    (a : DirAcc) (pre : List String) (es : List (String × DType × FSNode)) (m : Int)
    (s : String) (ex : Bool) (c : List Nat) (mt : Int) (rest : List String)
    (hd : descendDirs a.root pre = some (es, m))
    (hl : lookupEntry es s = some (.regular ex c mt))
    (hr : rest ≠ []) :
    ((a.maybeLstat ⟨pre ++ s :: rest⟩).1 =
        .error (.symlinkNotAllowed ⟨pre ++ s :: rest.dropLast⟩
          (symlinkMsg (a.showPath ⟨pre ++ s :: rest.dropLast⟩)))) ∧
    ((a.readLink ⟨pre ++ s :: rest⟩).1 =
        .error (.symlinkNotAllowed ⟨pre ++ s :: rest.dropLast⟩
          (symlinkMsg (a.showPath ⟨pre ++ s :: rest.dropLast⟩)))) ∧
    ((a.readFile ⟨pre ++ s :: rest⟩).1 =
        .error (.fileNotFound ("file '" ++ a.showPath ⟨pre ++ s :: rest⟩ ++ "' does not exist"))) := by
  obtain ⟨r, rs, rfl⟩ := List.exists_cons_of_ne_nil hr
  have hroot : CanonPath.isRoot ⟨pre ++ s :: r :: rs⟩ = false := by
    simp [CanonPath.isRoot]
  have hop := openParent_file a pre es m s ex c mt (r :: rs) hd hl (by simp)
  have hfull := openBeneath_through_file a.root pre es m s ex c mt (r :: rs) false hd hl
  refine ⟨?_, ?_, ?_⟩
  · have hin : (a.lstatInner ⟨pre ++ s :: r :: rs⟩).1 =
        .error (.symlinkNotAllowed ⟨pre ++ s :: (r :: rs).dropLast⟩ "") := by
      simp only [DirAcc.lstatInner, hroot, Bool.false_eq_true, if_false, hop]
    exact boundary_sym a _ _ _ hin
  · have hin : (a.readLinkInner ⟨pre ++ s :: r :: rs⟩).1 =
        .error (.symlinkNotAllowed ⟨pre ++ s :: (r :: rs).dropLast⟩ "") := by
      simp only [DirAcc.readLinkInner, hroot, Bool.false_eq_true, if_false, hop]
    exact boundary_sym a _ _ _ hin
  · have hin : (a.readFileInner ⟨pre ++ s :: r :: rs⟩).1 =
        .error (.fileNotFound ("file '" ++ a.showPath ⟨pre ++ s :: r :: rs⟩ ++ "' does not exist")) := by
      simp only [DirAcc.readFileInner, hroot, Bool.false_eq_true, if_false, hfull]
      rfl
    refine boundary_other a _ _ hin ?_
    intro p m0
    simp

/-- C10 witness: with regular file /f, statusOf and readLink on /f/g fail
with SymlinkNotAllowed while read fails with FileNotFound. -/
theorem claimC10_witness :
    descendDirs aFileMid.root [] = some ([("f", .dtReg, .regular false [7] 2)], 1) ∧
    lookupEntry [("f", .dtReg, .regular false [7] 2)] "f" = some (.regular false [7] 2) ∧
    (["g"] : List String) ≠ [] ∧
    ((aFileMid.maybeLstat ⟨["f", "g"]⟩).1 =
        .error (.symlinkNotAllowed ⟨["f"]⟩ (symlinkMsg (aFileMid.showPath ⟨["f"]⟩)))) ∧
    ((aFileMid.readLink ⟨["f", "g"]⟩).1 =
        .error (.symlinkNotAllowed ⟨["f"]⟩ (symlinkMsg (aFileMid.showPath ⟨["f"]⟩)))) ∧
    ((aFileMid.readFile ⟨["f", "g"]⟩).1 =
        .error (.fileNotFound ("file '" ++ aFileMid.showPath ⟨["f", "g"]⟩ ++ "' does not exist"))) := by
  have h := claimC10_file_intermediate_divergence aFileMid [] [("f", .dtReg, .regular false [7] 2)]
    1 "f" false [7] 2 ["g"] (by rfl) (by rfl) (by simp)
  exact ⟨by rfl, by rfl, by simp, h.1, h.2.1, h.2.2⟩

/-- C2 counterexample: a SymlinkNotAllowed escaping resolution of
/a/b/c (b a symlink) is re-raised with a message naming the internal
failing sub-path /a/b, which differs from the message the claim demands
(one naming the original requested path /a/b/c). -/
theorem claimC2_counterexample :
    (aSym.maybeLstat ⟨["a", "b", "c"]⟩).1 =
      .error (.symlinkNotAllowed ⟨["a", "b"]⟩ (symlinkMsg (aSym.showPath ⟨["a", "b"]⟩))) ∧
    symlinkMsg (aSym.showPath ⟨["a", "b"]⟩) ≠ symlinkMsg (aSym.showPath ⟨["a", "b", "c"]⟩) := by
  constructor
  · rfl
  · decide

/-- C2 corrected: a SymlinkNotAllowed raised inside path resolution is
caught at every public-operation boundary and re-raised, but the message
renders the internal failing sub-path (a strict prefix of the requested
path), not the original requested path. -/
theorem claimC2_rethrow_carries_subpath (a : DirAcc) (path q : CanonPath) (msg : String) :
    ((a.maybeLstat path).1 = .error (.symlinkNotAllowed q msg) →
      msg = symlinkMsg (a.showPath q) ∧ q.segs.length < path.segs.length ∧
        q.segs = path.segs.take q.segs.length) ∧
    ((a.readFile path).1 = .error (.symlinkNotAllowed q msg) →
      msg = symlinkMsg (a.showPath q) ∧ q.segs.length < path.segs.length ∧
        q.segs = path.segs.take q.segs.length) ∧
    ((a.readDirectory path).1 = .error (.symlinkNotAllowed q msg) →
      msg = symlinkMsg (a.showPath q) ∧ q.segs.length < path.segs.length ∧
        q.segs = path.segs.take q.segs.length) ∧
    ((a.readLink path).1 = .error (.symlinkNotAllowed q msg) →
      msg = symlinkMsg (a.showPath q) ∧ q.segs.length < path.segs.length ∧
        q.segs = path.segs.take q.segs.length) := by
  refine ⟨?_, ?_, ?_, ?_⟩
  · intro h
    obtain ⟨⟨m0, hin⟩, hmsg⟩ := boundary_sym_inv a (a.lstatInner path) q msg h
    obtain ⟨hroot, hop⟩ := lstat_symNA_inv a path q m0 hin
    obtain ⟨h1, h2⟩ := openParent_error_prefix a path q hroot hop
    exact ⟨hmsg, h1, h2⟩
  · intro h
    obtain ⟨⟨m0, hin⟩, hmsg⟩ := boundary_sym_inv a (a.readFileInner path) q msg h
    have hob := readFileInner_symNA_inv a path q m0 hin
    obtain ⟨h1, h2⟩ := symNA_q_self path.segs a.root false q hob
    exact ⟨hmsg, h1, h2⟩
  · intro h
    obtain ⟨⟨m0, hin⟩, hmsg⟩ := boundary_sym_inv a (a.readDirInner path) q msg h
    have hob := readDirInner_symNA_inv a path q m0 hin
    obtain ⟨h1, h2⟩ := symNA_q_self path.segs a.root true q hob
    exact ⟨hmsg, h1, h2⟩
  · intro h
    obtain ⟨⟨m0, hin⟩, hmsg⟩ := boundary_sym_inv a (a.readLinkInner path) q msg h
    obtain ⟨hroot, hop⟩ := readLink_symNA_inv a path q m0 hin
    obtain ⟨h1, h2⟩ := openParent_error_prefix a path q hroot hop
    exact ⟨hmsg, h1, h2⟩

/-- C2 witness: instantiating the corrected boundary property at the
concrete world: the rethrown message for statusOf /a/b/c names sub-path
/a/b, which is a strict prefix of the requested path. -/
theorem claimC2_witness :
    (aSym.maybeLstat ⟨["a", "b", "c"]⟩).1 =
      .error (.symlinkNotAllowed ⟨["a", "b"]⟩ (symlinkMsg (aSym.showPath ⟨["a", "b"]⟩))) ∧
    (symlinkMsg (aSym.showPath ⟨["a", "b"]⟩) = symlinkMsg (aSym.showPath ⟨["a", "b"]⟩) ∧
      (⟨["a", "b"]⟩ : CanonPath).segs.length < (⟨["a", "b", "c"]⟩ : CanonPath).segs.length ∧
      (⟨["a", "b"]⟩ : CanonPath).segs =
        (⟨["a", "b", "c"]⟩ : CanonPath).segs.take (⟨["a", "b"]⟩ : CanonPath).segs.length) :=
  ⟨by rfl,
   (claimC2_rethrow_carries_subpath aSym ⟨["a", "b", "c"]⟩ ⟨["a", "b"]⟩
     (symlinkMsg (aSym.showPath ⟨["a", "b"]⟩))).1 (by rfl)⟩

/-- C4 counterexample: in the world where /d/f exists but directory /d
denies search permission, the status query for /d/f fails with EACCES
(permission denied, not nonexistence), yet statusOf returns absent
instead of the hard failure the claim demands. -/
theorem claimC4_counterexample :
    (aDeny.maybeLstat ⟨["d", "f"]⟩).1 = .ok none ∧
    lookupEntry [("f", .dtReg, .regular false [] 0)] "f" = some (.regular false [] 0) ∧
    fstatatNoFollow (.directory true [("f", .dtReg, .regular false [] 0)] 0) "f" =
      .error .eacces ∧
    Errno.eacces ≠ Errno.enoent := by
  refine ⟨rfl, rfl, rfl, by decide⟩

/-- C4 corrected: statusOf for a non-root path returns absent whenever the
parent resolution returns an invalid descriptor or the final status query
fails for any reason whatsoever (including permission denied) — no hard
failure is surfaced for status-query errors; reading a path whose
resolution reports a missing entry (ENOENT) fails with FileNotFound. -/
theorem claimC4_absent_vs_notfound (a : DirAcc) (path : CanonPath)
    (hroot : path.isRoot = false) :
    (∀ pn e, a.openParent path = .ok (some pn) →
        fstatatNoFollow pn (path.baseName.getD "") = .error e →
        (a.maybeLstat path).1 = .ok none) ∧
    (a.openParent path = .ok none → (a.maybeLstat path).1 = .ok none) ∧
    (openBeneath a.root [] path.segs false = .error (.errno .enoent) →
        (a.readFile path).1 =
          .error (.fileNotFound ("file '" ++ a.showPath path ++ "' does not exist"))) := by
  refine ⟨?_, ?_, ?_⟩
  · intro pn e hop hst
    have hin : (a.lstatInner path).1 = .ok none := by
      simp [DirAcc.lstatInner, hroot, hop, hst]
    exact boundary_ok a _ _ hin
  · intro hop
    have hin : (a.lstatInner path).1 = .ok none := by
      simp [DirAcc.lstatInner, hroot, hop]
    exact boundary_ok a _ _ hin
  · intro hob
    have hin : (a.readFileInner path).1 =
        .error (.fileNotFound ("file '" ++ a.showPath path ++ "' does not exist")) := by
      simp [DirAcc.readFileInner, hroot, hob]
    refine boundary_other a _ _ hin ?_
    intro p m0
    simp

/-- C4 witness: in the deny world, /zz does not exist: statusOf /zz is
absent and read of /zz fails with FileNotFound. -/
theorem claimC4_witness :
    CanonPath.isRoot ⟨["zz"]⟩ = false ∧
    (aDeny.maybeLstat ⟨["zz"]⟩).1 = .ok none ∧
    (aDeny.readFile ⟨["zz"]⟩).1 =
      .error (.fileNotFound ("file '" ++ aDeny.showPath ⟨["zz"]⟩ ++ "' does not exist")) :=
  ⟨rfl,
   (claimC4_absent_vs_notfound aDeny ⟨["zz"]⟩ rfl).1 wDeny .enoent rfl rfl,
   (claimC4_absent_vs_notfound aDeny ⟨["zz"]⟩ rfl).2.2 rfl⟩

/-- C9: listDirectory on any directory handle never yields "." or "..";
every other raw entry appears with exactly the kind the listing record
supplies, mapped through the d_type switch (absent for an unclassifiable
entry — no extra status query is issued), and every returned entry stems
from a raw entry this way. -/
theorem claimC9_listing (a : DirAcc) (path : CanonPath)
    (deny : Bool) (entries : List (String × DType × FSNode)) (m : Int)
    (hod : a.openDirHandle path = .ok (.directory deny entries m)) :
    ∃ res, (a.readDirectory path).1 = .ok res ∧
      (∀ pr ∈ res, pr.1 ≠ "." ∧ pr.1 ≠ "..") ∧
      (∀ n d c, (n, d, c) ∈ entries → n ≠ "." → n ≠ ".." →
        (n, dtypeToOption d) ∈ res) ∧
      (∀ pr ∈ res, ∃ d c, (pr.1, d, c) ∈ entries ∧ pr.2 = dtypeToOption d) := by
  have hres : (a.readDirectory path).1 =
      .ok (((rawReaddir (.directory deny entries m)).filter
          (fun e => ¬(e.1 = "." ∨ e.1 = ".."))).map
        (fun e => (e.1, dtypeToOption e.2))) := by
    apply boundary_ok
    simp only [DirAcc.readDirInner, hod]
  refine ⟨_, hres, ?_, ?_, ?_⟩
  · intro pr hpr
    rw [List.mem_map] at hpr
    obtain ⟨e, he, rfl⟩ := hpr
    rw [List.mem_filter] at he
    have hP := he.2
    simp only [decide_not, Bool.not_eq_true', decide_eq_false_iff_not] at hP
    push_neg at hP
    exact hP
  · intro n d c hmem hn1 hn2
    rw [List.mem_map]
    refine ⟨(n, d), ?_, rfl⟩
    rw [List.mem_filter]
    constructor
    · simp only [rawReaddir]
      right; right
      exact List.mem_map.mpr ⟨(n, d, c), hmem, rfl⟩
    · simp [hn1, hn2]
  · intro pr hpr
    rw [List.mem_map] at hpr
    obtain ⟨e, he, rfl⟩ := hpr
    rw [List.mem_filter] at he
    have hP := he.2
    simp only [decide_not, Bool.not_eq_true', decide_eq_false_iff_not] at hP
    push_neg at hP
    have he1 := he.1
    simp only [rawReaddir, List.mem_cons] at he1
    rcases he1 with h1 | h1 | h1
    · exact absurd (congrArg Prod.fst h1) (by simpa using hP.1)
    · exact absurd (congrArg Prod.fst h1) (by simpa using hP.2)
    · rw [List.mem_map] at h1
      obtain ⟨⟨n, d, c⟩, hmem, hge⟩ := h1
      refine ⟨d, c, ?_, ?_⟩
      · have : e.1 = n := by rw [← hge]
        simpa [← hge] using hmem
      · rw [← hge]

/-- C9 witness: listing the root of the sample world yields exactly e1
(kind regular, from d_type) and e2 (kind absent, d_type unknown), and no
"." or ".." entries. -/
theorem claimC9_witness :
    aList.openDirHandle ⟨[]⟩ =
      .ok (.directory false
        [("e1", .dtReg, .regular true [1, 2] 0), ("e2", .dtUnknown, .special 0)] 0) ∧
    (∃ res, (aList.readDirectory ⟨[]⟩).1 = .ok res ∧
      (∀ pr ∈ res, pr.1 ≠ "." ∧ pr.1 ≠ "..") ∧
      (∀ n d c,
        (n, d, c) ∈ [("e1", .dtReg, FSNode.regular true [1, 2] 0), ("e2", .dtUnknown, .special 0)] →
        n ≠ "." → n ≠ ".." → (n, dtypeToOption d) ∈ res) ∧
      (∀ pr ∈ res, ∃ d c,
        (pr.1, d, c) ∈ [("e1", .dtReg, FSNode.regular true [1, 2] 0), ("e2", .dtUnknown, .special 0)] ∧
        pr.2 = dtypeToOption d)) :=
  ⟨rfl, claimC9_listing aList ⟨[]⟩ false
    [("e1", .dtReg, .regular true [1, 2] 0), ("e2", .dtUnknown, .special 0)] 0 rfl⟩

theorem chunkEvents_map (l : List (List Nat)) : chunkEvents (l.map Ev.chunk) = l := by
  induction l with
  | nil => rfl
  | cons x xs ih => simp only [List.map_cons, chunkEvents, List.filterMap_cons] at ih ⊢; rw [ih]

theorem chunkEvents_announce (n : Nat) (t : List Ev) :
    chunkEvents (Ev.announce n :: t) = chunkEvents t := by
  simp only [chunkEvents, List.filterMap_cons]

/-- C5: on the single-file accessor, reading any non-root path fails with
FileNotFound; reading the root announces the stat'ed total size before
any chunk is streamed, a complete read streams exactly that many bytes
(the file's first size bytes), and an end of file reached before the
announced size is a hard SysError, not a short read. -/
theorem claimC5_single_file_read (f : FileAcc) (path : CanonPath) :
    (path.isRoot = false →
      (f.readFile path).1 =
        ([], some (.fileNotFound ("path '" ++ f.showPath path ++ "' does not exist")))) ∧
    ((f.cachedStat.getD f.contentStat).kind = .tRegular →
      ((f.readFile CanonPath.root).1.1.head? =
        some (.announce (f.cachedStat.getD f.contentStat).size)) ∧
      ((f.cachedStat.getD f.contentStat).size ≤ f.content.length →
        (f.readFile CanonPath.root).1.2 = none ∧
        (chunkEvents (f.readFile CanonPath.root).1.1).flatten =
          f.content.take (f.cachedStat.getD f.contentStat).size ∧
        (chunkEvents (f.readFile CanonPath.root).1.1).flatten.length =
          (f.cachedStat.getD f.contentStat).size) ∧
      (f.content.length < (f.cachedStat.getD f.contentStat).size →
        (f.readFile CanonPath.root).1.2 = some (.sysError none "unexpected end-of-file"))) := by
  constructor
  · intro hpath
    simp [FileAcc.readFile, hpath]
  · intro hkind
    have hroot : CanonPath.root.isRoot = true := rfl
    cases hc : f.cachedStat with
    | some st =>
      rw [hc] at hkind
      simp only [Option.getD_some] at hkind ⊢
      have hml : f.maybeLstat CanonPath.root = (.ok (some (posixStatToAccessorStat st)), f) := by
        simp [FileAcc.maybeLstat, hc, CanonPath.root, CanonPath.isRoot]
      have hrf : f.readFile CanonPath.root =
          ((Ev.announce st.size :: (readLoop f.content 0 st.size).1.map Ev.chunk,
            (readLoop f.content 0 st.size).2), f) := by
        simp only [FileAcc.readFile, hroot, Bool.not_true, Bool.false_eq_true, if_false, hml]
        rw [show (posixStatToAccessorStat st).fileSize = some st.size from by
          simp [posixStatToAccessorStat, hkind]]
      rw [hrf]
      refine ⟨rfl, ?_, ?_⟩
      · intro hsz
        obtain ⟨h1, h2⟩ := readLoop_ok st.size f.content 0 (by omega)
        refine ⟨h1, ?_, ?_⟩
        · rw [chunkEvents_announce, chunkEvents_map, h2]
          simp
        · rw [chunkEvents_announce, chunkEvents_map, h2]
          simp only [List.drop_zero] at *
          rw [List.length_take]
          omega
      · intro hsz
        exact readLoop_short st.size f.content 0 (by omega) (by omega)
    | none =>
      rw [hc] at hkind
      simp only [Option.getD_none] at hkind ⊢
      have hml : f.maybeLstat CanonPath.root =
          (.ok (some (posixStatToAccessorStat f.contentStat)),
           { f with
             cachedStat := some f.contentStat
             queries := f.queries + 1
             mtime := if f.track then max f.mtime f.contentStat.mtime else f.mtime }) := by
        simp [FileAcc.maybeLstat, hc, CanonPath.root, CanonPath.isRoot]
      have hrf : f.readFile CanonPath.root =
          ((Ev.announce f.contentStat.size ::
              (readLoop f.content 0 f.contentStat.size).1.map Ev.chunk,
            (readLoop f.content 0 f.contentStat.size).2),
           { f with
             cachedStat := some f.contentStat
             queries := f.queries + 1
             mtime := if f.track then max f.mtime f.contentStat.mtime else f.mtime }) := by
        simp only [FileAcc.readFile, hroot, Bool.not_true, Bool.false_eq_true, if_false, hml]
        rw [show (posixStatToAccessorStat f.contentStat).fileSize = some f.contentStat.size from by
          simp [posixStatToAccessorStat, hkind]]
      rw [hrf]
      refine ⟨rfl, ?_, ?_⟩
      · intro hsz
        obtain ⟨h1, h2⟩ := readLoop_ok f.contentStat.size f.content 0 (by omega)
        refine ⟨h1, ?_, ?_⟩
        · rw [chunkEvents_announce, chunkEvents_map, h2]
          simp
        · rw [chunkEvents_announce, chunkEvents_map, h2]
          simp only [List.drop_zero] at *
          rw [List.length_take]
          omega
      · intro hsz
        exact readLoop_short f.contentStat.size f.content 0 (by omega) (by omega)

/-- C5 witness: a three-byte file announces size 3 and streams exactly
its three bytes; a file whose descriptor delivers only one byte against
an announced size of 3 fails with the unexpected end-of-file SysError. -/
theorem claimC5_witness :
    (CanonPath.isRoot ⟨["q"]⟩ = false ∧
      ((FileAcc.mkAcc [10, 20, 30] ⟨.tRegular, 3, false, 7⟩ ⟨["p"]⟩ false none).readFile
          ⟨["q"]⟩).1 =
        ([], some (.fileNotFound ("path '" ++
          (FileAcc.mkAcc [10, 20, 30] ⟨.tRegular, 3, false, 7⟩ ⟨["p"]⟩ false none).showPath
            ⟨["q"]⟩ ++ "' does not exist")))) ∧
    (((FileAcc.mkAcc [10, 20, 30] ⟨.tRegular, 3, false, 7⟩ ⟨["p"]⟩ false
        none).readFile CanonPath.root).1.1.head? = some (.announce 3) ∧
      ((FileAcc.mkAcc [10, 20, 30] ⟨.tRegular, 3, false, 7⟩ ⟨["p"]⟩ false
        none).readFile CanonPath.root).1.2 = none ∧
      (chunkEvents ((FileAcc.mkAcc [10, 20, 30] ⟨.tRegular, 3, false, 7⟩ ⟨["p"]⟩ false
        none).readFile CanonPath.root).1.1).flatten = [10, 20, 30]) ∧
    ((FileAcc.mkAcc [10] ⟨.tRegular, 3, false, 7⟩ ⟨["p"]⟩ false
        none).readFile CanonPath.root).1.2 =
      some (.sysError none "unexpected end-of-file") := by
  have h1 := claimC5_single_file_read
    (FileAcc.mkAcc [10, 20, 30] ⟨.tRegular, 3, false, 7⟩ ⟨["p"]⟩ false none) ⟨["q"]⟩
  have h2 := claimC5_single_file_read
    (FileAcc.mkAcc [10] ⟨.tRegular, 3, false, 7⟩ ⟨["p"]⟩ false none) CanonPath.root
  refine ⟨⟨rfl, h1.1 rfl⟩, ⟨(h1.2 rfl).1, ((h1.2 rfl).2.1 (by decide)).1, ?_⟩,
    (h2.2 rfl).2.2 (by decide)⟩
  have := ((h1.2 rfl).2.1 (by decide)).2.1
  rw [this]
  rfl

theorem runStats_cached (st : RawStat) (ps : List CanonPath) :
    ∀ f : FileAcc, f.cachedStat = some st →
      f.runStats ps =
        (ps.map (fun p => if p.isRoot then
            Except.ok (some (posixStatToAccessorStat st)) else Except.ok none), f) := by
  induction ps with
  | nil => intro f _; rfl
  | cons p ps ih =>
    intro f hc
    have hml : f.maybeLstat p =
        ((if p.isRoot then Except.ok (some (posixStatToAccessorStat st)) else Except.ok none),
          f) := by
      by_cases hp : p.isRoot
      · simp [FileAcc.maybeLstat, hp, hc]
      · simp only [Bool.not_eq_true] at hp
        simp [FileAcc.maybeLstat, hp]
    simp only [FileAcc.runStats, hml]
    rw [ih f hc]
    simp

theorem runStats_fresh (ps : List CanonPath) :
    ∀ f : FileAcc, f.cachedStat = none →
      (f.runStats ps).1 =
        ps.map (fun p => if p.isRoot then
          Except.ok (some (posixStatToAccessorStat f.contentStat)) else Except.ok none) ∧
      (f.runStats ps).2.queries ≤ f.queries + 1 := by
  induction ps with
  | nil =>
    intro f _
    exact ⟨rfl, by simp [FileAcc.runStats]⟩
  | cons p ps ih =>
    intro f hc
    by_cases hp : p.isRoot
    · have hml : f.maybeLstat p =
          (Except.ok (some (posixStatToAccessorStat f.contentStat)),
           { f with
             cachedStat := some f.contentStat
             queries := f.queries + 1
             mtime := if f.track then max f.mtime f.contentStat.mtime else f.mtime }) := by
        simp [FileAcc.maybeLstat, hp, hc]
      simp only [FileAcc.runStats, hml]
      rw [runStats_cached f.contentStat ps _ rfl]
      refine ⟨by simp [hp], by simp⟩
    · simp only [Bool.not_eq_true] at hp
      have hml : f.maybeLstat p = (Except.ok none, f) := by
        simp [FileAcc.maybeLstat, hp]
      simp only [FileAcc.runStats, hml]
      obtain ⟨h1, h2⟩ := ih f hc
      refine ⟨by simp [hp, h1], h2⟩

/-- C6: over any sequence of statusOf calls on one single-file accessor
instance, every root call returns the same record — the prefetched record
when one was supplied at construction, otherwise the record of the single
fstat — and the number of fstat syscalls issued is zero with a prefetched
record and at most one without. -/
theorem claimC6_stat_once (content : List Nat) (cst : RawStat) (rootPath : CanonPath)
    (track : Bool) (pre : Option RawStat) (ps : List CanonPath) :
    ((FileAcc.mkAcc content cst rootPath track pre).runStats ps).1 =
      ps.map (fun p => if p.isRoot then
        Except.ok (some (posixStatToAccessorStat (pre.getD cst))) else Except.ok none) ∧
    ((FileAcc.mkAcc content cst rootPath track pre).runStats ps).2.queries ≤
      (if pre.isSome then 0 else 1) := by
  cases pre with
  | some st =>
    have h := runStats_cached st ps (FileAcc.mkAcc content cst rootPath track (some st)) rfl
    rw [h]
    exact ⟨by simp, by simp [FileAcc.mkAcc]⟩
  | none =>
    obtain ⟨h1, h2⟩ := runStats_fresh ps (FileAcc.mkAcc content cst rootPath track none) rfl
    exact ⟨by simpa using h1, by simpa [FileAcc.mkAcc] using h2⟩

theorem updateMtime_facts (a : DirAcc) (m : Int) :
    (a.updateMtime m).root = a.root ∧ (a.updateMtime m).rootPath = a.rootPath ∧
    (a.updateMtime m).dpfx = a.dpfx ∧ (a.updateMtime m).track = a.track ∧
    a.mtime ≤ (a.updateMtime m).mtime ∧
    (a.track = false → (a.updateMtime m).mtime = a.mtime) ∧
    (a.track = true → (a.updateMtime m).mtime = max a.mtime m) := by
  simp only [DirAcc.updateMtime]
  cases ht : a.track with
  | true => simp [ht, le_max_left]
  | false => simp [ht]

theorem fileAcc_readFile_reg (c : List Nat) (ex : Bool) (mt : Int) (rp : CanonPath)
    (tr : Bool) :
    (FileAcc.mkAcc c ⟨.tRegular, c.length, ex, mt⟩ rp tr none).readFile CanonPath.root =
      ((Ev.announce c.length :: (readLoop c 0 c.length).1.map Ev.chunk, none),
       { FileAcc.mkAcc c ⟨.tRegular, c.length, ex, mt⟩ rp tr none with
         cachedStat := some ⟨.tRegular, c.length, ex, mt⟩
         queries := 1
         mtime := if tr then max 0 mt else 0 }) := by
  have hml : (FileAcc.mkAcc c ⟨.tRegular, c.length, ex, mt⟩ rp tr none).maybeLstat
      CanonPath.root =
      (.ok (some (posixStatToAccessorStat ⟨.tRegular, c.length, ex, mt⟩)),
       { FileAcc.mkAcc c ⟨.tRegular, c.length, ex, mt⟩ rp tr none with
         cachedStat := some ⟨.tRegular, c.length, ex, mt⟩
         queries := 1
         mtime := if tr then max 0 mt else 0 }) := by
    simp [FileAcc.maybeLstat, FileAcc.mkAcc, CanonPath.root, CanonPath.isRoot]
  simp only [FileAcc.readFile]
  rw [if_neg (by decide), hml]
  dsimp only
  rw [show (posixStatToAccessorStat ⟨.tRegular, c.length, ex, mt⟩).fileSize = some c.length
    from by simp [posixStatToAccessorStat]]
  dsimp only [FileAcc.mkAcc]
  rw [(readLoop_ok c.length c 0 (by omega)).1]

theorem fileAcc_readFile_nonreg_out (cst : RawStat) (hk : ¬cst.kind = .tRegular)
    (c : List Nat) (rp : CanonPath) (tr : Bool) :
    ((FileAcc.mkAcc c cst rp tr none).readFile CanonPath.root).1.2 =
      some .badOptionalAccess := by
  have hml : (FileAcc.mkAcc c cst rp tr none).maybeLstat CanonPath.root =
      (.ok (some (posixStatToAccessorStat cst)),
       { FileAcc.mkAcc c cst rp tr none with
         cachedStat := some cst
         queries := 1
         mtime := if tr then max 0 cst.mtime else 0 }) := by
    simp [FileAcc.maybeLstat, FileAcc.mkAcc, CanonPath.root, CanonPath.isRoot]
  simp only [FileAcc.readFile]
  rw [if_neg (by decide), hml]
  dsimp only
  rw [show (posixStatToAccessorStat cst).fileSize = none from by
    simp [posixStatToAccessorStat, hk]]

theorem readDirInner_snd (a : DirAcc) (p : CanonPath) : (a.readDirInner p).2 = a := by
  simp only [DirAcc.readDirInner]
  cases hod : a.openDirHandle p with
  | error e => rfl
  | ok node => rfl

theorem readLinkInner_snd (a : DirAcc) (p : CanonPath) : (a.readLinkInner p).2 = a := by
  simp only [DirAcc.readLinkInner]
  cases hp : p.isRoot with
  | true => rfl
  | false =>
    simp only [Bool.false_eq_true, if_false]
    cases hop : a.openParent p with
    | error q => rfl
    | ok o =>
      cases o with
      | none => rfl
      | some pn =>
        dsimp only
        cases hrl : readLinkAt pn (p.baseName.getD "") with
        | ok t => rfl
        | error e =>
          dsimp only
          split <;> rfl

theorem runOp_state (a : DirAcc) (op : DOp) :
    (a.runOp op).root = a.root ∧ (a.runOp op).rootPath = a.rootPath ∧
    (a.runOp op).dpfx = a.dpfx ∧ (a.runOp op).track = a.track ∧
    a.mtime ≤ (a.runOp op).mtime ∧
    (a.track = false → (a.runOp op).mtime = a.mtime) ∧
    (a.track = true → 0 ≤ a.mtime →
      (a.runOp op).mtime = List.foldl max a.mtime (a.observed op)) := by
  cases op with
  | statOp p =>
    have hrw : a.runOp (.statOp p) = (a.lstatInner p).2 := boundary_snd a (a.lstatInner p)
    rw [hrw]
    cases hp : p.isRoot with
    | true =>
      have h1 : (a.lstatInner p).2 = a.updateMtime a.root.rawStat.mtime := by
        simp [DirAcc.lstatInner, hp]
      have h2 : a.observed (.statOp p) = [a.root.rawStat.mtime] := by
        simp [DirAcc.observed, hp]
      rw [h1, h2]
      obtain ⟨u1, u2, u3, u4, u5, u6, u7⟩ := updateMtime_facts a a.root.rawStat.mtime
      exact ⟨u1, u2, u3, u4, u5, u6, fun ht _ => by rw [u7 ht]; rfl⟩
    | false =>
      simp only [DirAcc.lstatInner, DirAcc.observed, hp, Bool.false_eq_true, if_false]
      cases hop : a.openParent p with
      | error q => simp
      | ok o =>
        cases o with
        | none => simp
        | some pn =>
          dsimp only
          cases hst : fstatatNoFollow pn (p.baseName.getD "") with
          | error e => simp
          | ok st =>
            dsimp only
            obtain ⟨u1, u2, u3, u4, u5, u6, u7⟩ := updateMtime_facts a st.mtime
            exact ⟨u1, u2, u3, u4, u5, u6, fun ht _ => by rw [u7 ht]; rfl⟩
  | readOp p =>
    have hrw : a.runOp (.readOp p) = (a.readFileInner p).2 := boundary_snd a (a.readFileInner p)
    rw [hrw]
    cases hp : p.isRoot with
    | true => simp [DirAcc.readFileInner, DirAcc.observed, hp]
    | false =>
      simp only [DirAcc.readFileInner, DirAcc.observed, hp, Bool.false_eq_true, if_false]
      cases hob : openBeneath a.root [] p.segs false with
      | error oe =>
        cases oe with
        | symlinkNA q => simp
        | errno e =>
          dsimp only
          refine ⟨?_, ?_, ?_, ?_, ?_, ?_, ?_⟩ <;> (split <;> try split) <;> simp
      | ok node =>
        dsimp only
        cases node with
        | regular ex c mt =>
          rw [show (FSNode.regular ex c mt).content = c from rfl,
            show (FSNode.regular ex c mt).rawStat = ⟨.tRegular, c.length, ex, mt⟩ from rfl]
          rw [fileAcc_readFile_reg c ex mt (a.rootPath.concat p) a.track]
          dsimp only [FSNode.rawStat, FSNode.content]
          cases ht : a.track with
          | false =>
            simp only [FileAcc.getLastModified, FileAcc.mkAcc, ht, Bool.false_eq_true,
              if_false]
            simp
          | true =>
            simp only [FileAcc.getLastModified, FileAcc.mkAcc, ht, if_true]
            refine ⟨trivial, trivial, trivial, trivial, le_max_left _ _, by simp, ?_⟩
            intro _ h0
            rw [if_pos (le_refl _)]
            simp only [List.foldl_cons, List.foldl_nil]
            rw [← max_assoc, max_eq_left h0]
        | directory deny es mt =>
          rcases hfa : (FileAcc.mkAcc (FSNode.directory deny es mt).content
              (FSNode.directory deny es mt).rawStat (a.rootPath.concat p) a.track
              none).readFile CanonPath.root with ⟨⟨tr0, out⟩, fa2⟩
          have hout := fileAcc_readFile_nonreg_out (FSNode.directory deny es mt).rawStat
            (by simp [FSNode.rawStat]) (FSNode.directory deny es mt).content
            (a.rootPath.concat p) a.track
          rw [hfa] at hout
          dsimp only at hout
          subst hout
          simp [FSNode.rawStat]
        | symlink t mt =>
          rcases hfa : (FileAcc.mkAcc (FSNode.symlink t mt).content
              (FSNode.symlink t mt).rawStat (a.rootPath.concat p) a.track
              none).readFile CanonPath.root with ⟨⟨tr0, out⟩, fa2⟩
          have hout := fileAcc_readFile_nonreg_out (FSNode.symlink t mt).rawStat
            (by simp [FSNode.rawStat]) (FSNode.symlink t mt).content
            (a.rootPath.concat p) a.track
          rw [hfa] at hout
          dsimp only at hout
          subst hout
          simp [FSNode.rawStat]
        | special mt =>
          rcases hfa : (FileAcc.mkAcc (FSNode.special mt).content
              (FSNode.special mt).rawStat (a.rootPath.concat p) a.track
              none).readFile CanonPath.root with ⟨⟨tr0, out⟩, fa2⟩
          have hout := fileAcc_readFile_nonreg_out (FSNode.special mt).rawStat
            (by simp [FSNode.rawStat]) (FSNode.special mt).content
            (a.rootPath.concat p) a.track
          rw [hfa] at hout
          dsimp only at hout
          subst hout
          simp [FSNode.rawStat]
  | listOp p =>
    have hrw : a.runOp (.listOp p) = (a.readDirInner p).2 := boundary_snd a (a.readDirInner p)
    rw [hrw, readDirInner_snd]
    simp [DirAcc.observed]
  | linkOp p =>
    have hrw : a.runOp (.linkOp p) = (a.readLinkInner p).2 := boundary_snd a (a.readLinkInner p)
    rw [hrw, readLinkInner_snd]
    simp [DirAcc.observed]

theorem runSeq_append (a : DirAcc) (l1 l2 : List DOp) :
    a.runSeq (l1 ++ l2) = (a.runSeq l1).runSeq l2 := by
  induction l1 generalizing a with
  | nil => rfl
  | cons op ops ih => exact ih (a.runOp op)

theorem runSeq_state (a : DirAcc) (ops : List DOp) :
    (a.runSeq ops).root = a.root ∧ (a.runSeq ops).track = a.track ∧
    a.mtime ≤ (a.runSeq ops).mtime ∧
    (a.track = false → (a.runSeq ops).mtime = a.mtime) ∧
    (a.track = true → 0 ≤ a.mtime →
      (a.runSeq ops).mtime = List.foldl max a.mtime (a.observedSeq ops)) := by
  induction ops generalizing a with
  | nil => exact ⟨rfl, rfl, le_refl _, fun _ => rfl, fun _ _ => rfl⟩
  | cons op ops ih =>
    obtain ⟨r1, r2, r3, r4, r5, r6, r7⟩ := runOp_state a op
    obtain ⟨s1, s2, s3, s4, s5⟩ := ih (a.runOp op)
    refine ⟨s1.trans r1, s2.trans r4, le_trans r5 s3, ?_, ?_⟩
    · intro ht
      have := s4 (by rw [r4]; exact ht)
      rw [show a.runSeq (op :: ops) = (a.runOp op).runSeq ops from rfl, this, r6 ht]
    · intro ht h0
      rw [show a.runSeq (op :: ops) = (a.runOp op).runSeq ops from rfl,
        show a.observedSeq (op :: ops) = a.observed op ++ (a.runOp op).observedSeq ops
          from rfl,
        s5 (by rw [r4]; exact ht) (le_trans h0 r5), r7 ht h0, List.foldl_append]

/-- C7 counterexample: with tracking enabled, a single status query on a
root whose st_mtime is -1 (pre-epoch) observes exactly the timestamp -1,
yet lastModified reports 0 (the initial high-water mark), not the maximum
(-1) of the observed timestamps. -/
theorem claimC7_counterexample :
    (aNeg.runSeq [.statOp CanonPath.root]).getLastModified = some 0 ∧
    aNeg.observedSeq [.statOp CanonPath.root] = [-1] ∧
    (some (0 : Int) ≠ some (-1 : Int)) := by
  refine ⟨rfl, rfl, by decide⟩

/-- C7 corrected: with tracking enabled and single-threaded use,
lastModified after any operation sequence equals the maximum of 0 (the
initial high-water mark) and all observed entry timestamps, and never
decreases as the sequence is extended; with tracking disabled it is
always absent. -/
theorem claimC7_tracking (root : FSNode) (rootPath : CanonPath) (track : Bool)
    (ops ops2 : List DOp) :
    (track = true →
      ((DirAcc.mkAcc root rootPath track).runSeq ops).getLastModified =
        some (List.foldl max 0 ((DirAcc.mkAcc root rootPath track).observedSeq ops))) ∧
    (((DirAcc.mkAcc root rootPath track).runSeq ops).mtime ≤
      ((DirAcc.mkAcc root rootPath track).runSeq (ops ++ ops2)).mtime) ∧
    (track = false →
      ((DirAcc.mkAcc root rootPath track).runSeq ops).getLastModified = none) := by
  obtain ⟨s1, s2, s3, s4, s5⟩ := runSeq_state (DirAcc.mkAcc root rootPath track) ops
  refine ⟨?_, ?_, ?_⟩
  · intro ht
    have htr : (DirAcc.mkAcc root rootPath track).track = true := ht
    have hm0 : (0 : Int) ≤ (DirAcc.mkAcc root rootPath track).mtime := le_refl 0
    have hmt := s5 htr hm0
    have hfin : ((DirAcc.mkAcc root rootPath track).runSeq ops).getLastModified =
        some (((DirAcc.mkAcc root rootPath track).runSeq ops).mtime) := by
      simp only [DirAcc.getLastModified]
      rw [s2, htr]
      rfl
    rw [hfin, hmt]
    rfl
  · rw [runSeq_append]
    exact (runSeq_state ((DirAcc.mkAcc root rootPath track).runSeq ops) ops2).2.2.1
  · intro ht
    have htr : (DirAcc.mkAcc root rootPath track).track = false := ht
    simp only [DirAcc.getLastModified]
    rw [s2, htr]
    rfl

/-- C7 witness: on the listing world with tracking on, one status query
yields lastModified max(0, observed); with tracking off it is absent; the
high-water mark never decreases when the sequence is extended by a read. -/
theorem claimC7_witness :
    ((DirAcc.mkAcc wList ⟨[]⟩ true).runSeq [.statOp CanonPath.root]).getLastModified =
      some (List.foldl max 0 ((DirAcc.mkAcc wList ⟨[]⟩ true).observedSeq
        [.statOp CanonPath.root])) ∧
    ((DirAcc.mkAcc wList ⟨[]⟩ true).runSeq [.statOp CanonPath.root]).mtime ≤
      ((DirAcc.mkAcc wList ⟨[]⟩ true).runSeq
        ([.statOp CanonPath.root] ++ [.readOp ⟨["e1"]⟩])).mtime ∧
    ((DirAcc.mkAcc wList ⟨[]⟩ false).runSeq [.statOp CanonPath.root]).getLastModified =
      none :=
  ⟨(claimC7_tracking wList ⟨[]⟩ true [.statOp CanonPath.root] [.readOp ⟨["e1"]⟩]).1 rfl,
   (claimC7_tracking wList ⟨[]⟩ true [.statOp CanonPath.root] [.readOp ⟨["e1"]⟩]).2.1,
   (claimC7_tracking wList ⟨[]⟩ false [.statOp CanonPath.root] []).2.2 rfl⟩

theorem oa_final (entries : List (String × DType × FSNode)) (m0 : Int) (s : String)
    (w nf : Bool) (child : FSNode) (hl : lookupEntry entries s = some child) :
    openAbs (.directory false entries m0) [s] w nf = absFinalStep child w nf := by
  rw [openAbs.eq_def]
  dsimp only
  rw [hl]
  cases child <;> rfl

theorem oa_step (entries : List (String × DType × FSNode)) (m0 : Int) (s : String)
    (rest : List String) (w nf : Bool) (child : FSNode)
    (hr : rest ≠ []) (hl : lookupEntry entries s = some child) :
    openAbs (.directory false entries m0) (s :: rest) w nf = absInterStep child rest w nf := by
  obtain ⟨r, rs, hrr⟩ := List.exists_cons_of_ne_nil hr
  subst hrr
  rw [openAbs.eq_def]
  dsimp only
  rw [hl]
  cases child <;> rfl

theorem openAbs_eloop_parent (pre : List String) :
    ∀ (tree : FSNode) (b : String), openAbs tree (pre ++ [b]) false true = .error .eloop →
      ∃ es m, openAbs tree pre true false = .ok (.directory false es m) ∧
        ∃ t tm, lookupEntry es b = some (.symlink t tm) := by
  induction pre with
  | nil =>
    intro tree b h
    rw [List.nil_append] at h
    cases tree with
    | regular ex c mt => rw [openAbs.eq_def] at h; simp at h
    | symlink t mt => rw [openAbs.eq_def] at h; simp at h
    | special mt => rw [openAbs.eq_def] at h; simp at h
    | directory deny entries m0 =>
      cases deny with
      | true => rw [openAbs.eq_def] at h; simp at h
      | false =>
        cases hl : lookupEntry entries b with
        | none =>
          rw [openAbs.eq_def] at h
          dsimp only at h
          rw [hl] at h
          simp at h
        | some child =>
          rw [oa_final entries m0 b false true child hl] at h
          cases child with
          | regular ex c mt => simp [absFinalStep] at h
          | directory d2 e2 m2 => simp [absFinalStep] at h
          | special mt => simp [absFinalStep] at h
          | symlink t tm =>
            refine ⟨entries, m0, ?_, t, tm, hl⟩
            rw [openAbs.eq_def]
            rfl
  | cons s pre' ih =>
    intro tree b h
    rw [List.cons_append] at h
    cases tree with
    | regular ex c mt => rw [openAbs.eq_def] at h; simp at h
    | symlink t mt => rw [openAbs.eq_def] at h; simp at h
    | special mt => rw [openAbs.eq_def] at h; simp at h
    | directory deny entries m0 =>
      cases deny with
      | true => rw [openAbs.eq_def] at h; simp at h
      | false =>
        cases hl : lookupEntry entries s with
        | none =>
          rw [openAbs.eq_def] at h
          dsimp only at h
          rw [hl] at h
          simp at h
        | some child =>
          rw [oa_step entries m0 s (pre' ++ [b]) false true child (by simp) hl] at h
          cases child with
          | regular ex c mt => simp [absInterStep] at h
          | symlink t tm => simp [absInterStep] at h
          | special mt => simp [absInterStep] at h
          | directory d2 e2 m2 =>
            dsimp only [absInterStep] at h
            obtain ⟨es, m, hpar, t, tm, hlk⟩ := ih (.directory d2 e2 m2) b h
            refine ⟨es, m, ?_, t, tm, hlk⟩
            cases pre' with
            | nil =>
              rw [openAbs.eq_def] at hpar
              dsimp only at hpar
              cases d2 with
              | true => simp at hpar
              | false =>
                simp at hpar
                rw [oa_final entries m0 s true false _ hl]
                dsimp only [absFinalStep]
                rw [hpar.1, hpar.2]
            | cons q qs =>
              rw [oa_step entries m0 s (q :: qs) true false _ (by simp) hl]
              exact hpar

theorem makeFS_eloop (tree : FSNode) (pre : List String) (b : String) (track : Bool)
    (es : List (String × DType × FSNode)) (m : Int) (t : String) (tm : Int)
    (hpar : openAbs tree pre true false = .ok (.directory false es m))
    (hlk : lookupEntry es b = some (.symlink t tm))
    (heloop : openAbs tree (pre ++ [b]) false true = .error .eloop) :
    makeFSSourceAccessor tree ⟨pre ++ [b]⟩ track =
      .ok (.symlinkAcc t ⟨pre ++ [b]⟩ track tm) := by
  have hroot : CanonPath.isRoot ⟨pre ++ [b]⟩ = false := by
    simp [CanonPath.isRoot]
  have hparent : CanonPath.parent ⟨pre ++ [b]⟩ = some ⟨pre⟩ := by
    simp [CanonPath.parent, List.dropLast_concat]
  have hbase : CanonPath.baseName ⟨pre ++ [b]⟩ = some b := by
    simp [CanonPath.baseName]
  have hfst : fstatatNoFollow (.directory false es m) b = .ok (FSNode.symlink t tm).rawStat := by
    simp [fstatatNoFollow, hlk]
  have hrla : readLinkAt (.directory false es m) b = .ok t := by
    simp [readLinkAt, hlk]
  simp only [makeFSSourceAccessor, hroot, Bool.false_eq_true, if_false, heloop,
    eq_self_iff_true, if_true, hparent, hbase, Option.getD_some, hpar, hfst, hrla,
    FSNode.rawStat]

/-- C3: the root-selection entry point never fails in the model: for
every filesystem and every absolute root path it returns an accessor; in
particular, whenever the plain open of the root fails, it returns either
the in-memory single-symlink stand-in (symlink root) or the empty dummy
accessor displaying the root path, never an error. -/
theorem claimC3_construction_never_fails (tree : FSNode) (root : CanonPath) (track : Bool) :
    (∃ acc, makeFSSourceAccessor tree root track = .ok acc) ∧
    (∀ e, openAbs tree root.segs false true = .error e → root.isRoot = false →
      (∃ t m2, makeFSSourceAccessor tree root track = .ok (.symlinkAcc t root track m2)) ∨
      makeFSSourceAccessor tree root track = .ok (.dummyAcc root.abs)) := by
  obtain ⟨segs⟩ := root
  by_cases hroot : CanonPath.isRoot ⟨segs⟩ = true
  · constructor
    · exact ⟨.dirAcc (getFSSourceAccessor tree), by simp [makeFSSourceAccessor, hroot]⟩
    · intro e _ hroot2
      rw [hroot] at hroot2
      simp at hroot2
  · have hroot2 : CanonPath.isRoot ⟨segs⟩ = false := by simpa using hroot
    cases hoa : openAbs tree segs false true with
    | ok node =>
      constructor
      · simp only [makeFSSourceAccessor, hroot2, Bool.false_eq_true, if_false, hoa]
        by_cases h1 : node.rawStat.kind = .tDirectory
        · rw [if_pos h1]; exact ⟨_, rfl⟩
        · rw [if_neg h1]
          by_cases h2 : node.rawStat.kind = .tRegular
          · rw [if_pos h2]; exact ⟨_, rfl⟩
          · rw [if_neg h2]; exact ⟨_, rfl⟩
      · intro e he
        simp at he
    | error e0 =>
      by_cases he0 : e0 = .eloop
      · subst he0
        have hne : segs ≠ [] := by
          simpa [CanonPath.isRoot, List.isEmpty_eq_false] using hroot2
        rcases List.eq_nil_or_concat segs with hnil | ⟨pre, b, hco⟩
        · exact absurd hnil hne
        · rw [List.concat_eq_append] at hco
          subst hco
          obtain ⟨es, m, hpar, t, tm, hlk⟩ := openAbs_eloop_parent pre tree b hoa
          have hmk := makeFS_eloop tree pre b track es m t tm hpar hlk hoa
          exact ⟨⟨_, hmk⟩, fun e _ _ => .inl ⟨t, tm, hmk⟩⟩
      · have hdum : makeFSSourceAccessor tree ⟨segs⟩ track = .ok (.dummyAcc (CanonPath.abs ⟨segs⟩)) := by
          simp only [makeFSSourceAccessor, hroot2, Bool.false_eq_true, if_false, hoa]
          rw [if_neg he0]
        exact ⟨⟨_, hdum⟩, fun e _ _ => .inr hdum⟩

/-- C3 witness: opening /nope fails with ENOENT and construction still
succeeds, returning the empty dummy accessor displaying /nope. -/
theorem claimC3_witness :
    (∃ acc, makeFSSourceAccessor wSymRoot ⟨["nope"]⟩ false = .ok acc) ∧
    openAbs wSymRoot ["nope"] false true = .error .enoent ∧
    CanonPath.isRoot ⟨["nope"]⟩ = false ∧
    ((∃ t m2, makeFSSourceAccessor wSymRoot ⟨["nope"]⟩ false =
        .ok (.symlinkAcc t ⟨["nope"]⟩ false m2)) ∨
      makeFSSourceAccessor wSymRoot ⟨["nope"]⟩ false = .ok (.dummyAcc (CanonPath.abs ⟨["nope"]⟩))) :=
  ⟨(claimC3_construction_never_fails wSymRoot ⟨["nope"]⟩ false).1, rfl, rfl,
   (claimC3_construction_never_fails wSymRoot ⟨["nope"]⟩ false).2 .enoent rfl rfl⟩

/-- C8: a root path whose final component is a symlink (plain open fails
with ELOOP) yields the in-memory stand-in accessor built from the link
read through the parent: its root stat reports kind symlink, readLink of
the root returns the link target, and lastModified carries the entry's
st_mtime exactly when tracking was requested; the construction never
resolves the target. -/
theorem claimC8_symlink_root (tree : FSNode) (pre : List String) (b : String) (track : Bool)
    (heloop : openAbs tree (pre ++ [b]) false true = .error .eloop) :
    ∃ es m t tm,
      openAbs tree pre true false = .ok (.directory false es m) ∧
      lookupEntry es b = some (.symlink t tm) ∧
      makeFSSourceAccessor tree ⟨pre ++ [b]⟩ track =
        .ok (.symlinkAcc t ⟨pre ++ [b]⟩ track tm) ∧
      symlinkAccLstat CanonPath.root = some ⟨.tSymlink, none, none, none⟩ ∧
      symlinkAccReadLink t CanonPath.root = .ok t ∧
      symlinkAccLastModified track tm = (if track then some tm else none) := by
  obtain ⟨es, m, hpar, t, tm, hlk⟩ := openAbs_eloop_parent pre tree b heloop
  exact ⟨es, m, t, tm, hpar, hlk,
    makeFS_eloop tree pre b track es m t tm hpar hlk heloop, rfl, rfl, rfl⟩

/-- C8 witness: in the world whose entry /x is a symlink to tgt, the
entry point with tracking on returns the single-symlink stand-in with
target tgt and the entry's mtime 9. -/
theorem claimC8_witness :
    openAbs wSymRoot (([] : List String) ++ ["x"]) false true = .error .eloop ∧
    (∃ es m t tm,
      openAbs wSymRoot [] true false = .ok (.directory false es m) ∧
      lookupEntry es "x" = some (.symlink t tm) ∧
      makeFSSourceAccessor wSymRoot ⟨([] : List String) ++ ["x"]⟩ true =
        .ok (.symlinkAcc t ⟨([] : List String) ++ ["x"]⟩ true tm) ∧
      symlinkAccLstat CanonPath.root = some ⟨.tSymlink, none, none, none⟩ ∧
      symlinkAccReadLink t CanonPath.root = .ok t ∧
      symlinkAccLastModified true tm = (if true then some tm else none)) :=
  ⟨rfl, claimC8_symlink_root wSymRoot [] "x" true rfl⟩

end NixUnixAccessor
